import Mathlib

/-!
Verification of the arc-length traversal engine of
`WebCore/platform/graphics/PathTraversalState.cpp`.

The embedding models the C++ `float` arithmetic with real numbers: points
are pairs of reals, `sqrtf` is `Real.sqrt`, the explicit work stack of
`curveLength` is a `List` whose head is the stack top, and the `do/while`
loop is a fuel-indexed recursion returning `Option` (`none` means the fuel
ran out before the loop finished, or an unreachable empty-stack pop).
-/

noncomputable section

open Real

/-- A point, as in WebCore's `FloatPoint` (two coordinates). -/
@[ext]
structure FloatPoint where
  x : ℝ
  y : ℝ

/-- The tolerance constant `kPathSegmentLengthTolerance = 0.00001f`. -/
def kPathSegmentLengthTolerance : ℝ := 0.00001

/-- Coordinate-wise arithmetic midpoint, as in the source's `midPoint`. -/
def midPoint (first second : FloatPoint) : FloatPoint :=
  ⟨(first.x + second.x) / 2, (first.y + second.y) / 2⟩

/-- Euclidean distance, as in the source's `distanceLine`:
`sqrtf((end.x-start.x)*(end.x-start.x) + (end.y-start.y)*(end.y-start.y))`. -/
def distanceLine (start endP : FloatPoint) : ℝ :=
  Real.sqrt ((endP.x - start.x) * (endP.x - start.x) +
             (endP.y - start.y) * (endP.y - start.y))

/-- The `QuadraticBezier` struct: start, control, end points. -/
structure QuadraticBezier where
  start : FloatPoint
  control : FloatPoint
  endP : FloatPoint

/-- `QuadraticBezier::approximateDistance`: length of the control polygon. -/
def QuadraticBezier.approximateDistance (q : QuadraticBezier) : ℝ :=
  distanceLine q.start q.control + distanceLine q.control q.endP

/-- `QuadraticBezier::split`, returning the `(left, right)` out-parameters. -/
def QuadraticBezier.split (q : QuadraticBezier) :
    QuadraticBezier × QuadraticBezier :=
  let leftControl := midPoint q.start q.control
  let rightControl := midPoint q.control q.endP
  let leftControlToRightControl := midPoint leftControl rightControl
  (⟨q.start, leftControl, leftControlToRightControl⟩,
   ⟨leftControlToRightControl, rightControl, q.endP⟩)

/-- The `CubicBezier` struct: start, two controls, end. -/
structure CubicBezier where
  start : FloatPoint
  control1 : FloatPoint
  control2 : FloatPoint
  endP : FloatPoint

/-- `CubicBezier::approximateDistance`: length of the control polygon. -/
def CubicBezier.approximateDistance (c : CubicBezier) : ℝ :=
  distanceLine c.start c.control1 + distanceLine c.control1 c.control2 +
    distanceLine c.control2 c.endP

/-- `CubicBezier::split`, returning the `(left, right)` out-parameters. -/
def CubicBezier.split (c : CubicBezier) : CubicBezier × CubicBezier :=
  let startToControl1 := midPoint c.control1 c.control2
  let leftControl1 := midPoint c.start c.control1
  let leftControl2 := midPoint leftControl1 startToControl1
  let rightControl2 := midPoint c.control2 c.endP
  let rightControl1 := midPoint rightControl2 startToControl1
  let leftControl2ToRightControl1 := midPoint leftControl2 rightControl1
  (⟨c.start, leftControl1, leftControl2, leftControl2ToRightControl1⟩,
   ⟨leftControl2ToRightControl1, rightControl1, rightControl2, c.endP⟩)

/-- Pointwise evaluation of a quadratic Bezier curve at parameter `t`
(the curve the control points define; used to state that `split`
reproduces the parent curve). -/
def QuadraticBezier.eval (q : QuadraticBezier) (t : ℝ) : FloatPoint :=
  ⟨(1 - t) ^ 2 * q.start.x + 2 * (1 - t) * t * q.control.x + t ^ 2 * q.endP.x,
   (1 - t) ^ 2 * q.start.y + 2 * (1 - t) * t * q.control.y + t ^ 2 * q.endP.y⟩

/-- Pointwise evaluation of a cubic Bezier curve at parameter `t`. -/
def CubicBezier.eval (c : CubicBezier) (t : ℝ) : FloatPoint :=
  ⟨(1 - t) ^ 3 * c.start.x + 3 * (1 - t) ^ 2 * t * c.control1.x +
      3 * (1 - t) * t ^ 2 * c.control2.x + t ^ 3 * c.endP.x,
   (1 - t) ^ 3 * c.start.y + 3 * (1 - t) ^ 2 * t * c.control1.y +
      3 * (1 - t) * t ^ 2 * c.control2.y + t ^ 3 * c.endP.y⟩

/-- The traversal action, from `PathTraversalState::PathTraversalAction`. -/
inductive PathTraversalAction where
  | TraversalTotalLength
  | TraversalPointAtLength
  | TraversalNormalAngleAtLength
deriving DecidableEq

export PathTraversalAction (TraversalTotalLength TraversalPointAtLength
  TraversalNormalAngleAtLength)

/-- The `PathTraversalState` record (members as in the source). -/
structure PathTraversalState where
  m_action : PathTraversalAction
  m_success : Bool
  m_current : FloatPoint
  m_start : FloatPoint
  m_control1 : FloatPoint
  m_control2 : FloatPoint
  m_previous : FloatPoint
  m_totalLength : ℝ
  m_segmentIndex : ℤ
  m_desiredLength : ℝ
  m_normalAngle : ℝ

/-- The `PathTraversalState` constructor: scalars zeroed, `m_success`
false, points default-constructed to the origin. -/
def PathTraversalState.init (action : PathTraversalAction) :
    PathTraversalState where
  m_action := action
  m_success := false
  m_current := ⟨0, 0⟩
  m_start := ⟨0, 0⟩
  m_control1 := ⟨0, 0⟩
  m_control2 := ⟨0, 0⟩
  m_previous := ⟨0, 0⟩
  m_totalLength := 0
  m_segmentIndex := 0
  m_desiredLength := 0
  m_normalAngle := 0

/-- The capability interface of the `template<class CurveType>` parameter
of `curveLength`: approximate distance, start/end access and subdivision. -/
class CurveType (C : Type) where
  approximateDistance : C → ℝ
  startP : C → FloatPoint
  endP : C → FloatPoint
  split : C → C × C

instance : CurveType QuadraticBezier where
  approximateDistance := QuadraticBezier.approximateDistance
  startP := QuadraticBezier.start
  endP := QuadraticBezier.endP
  split := QuadraticBezier.split

instance : CurveType CubicBezier where
  approximateDistance := CubicBezier.approximateDistance
  startP := CubicBezier.start
  endP := CubicBezier.endP
  split := CubicBezier.split

/-- The body of `curveLength`'s `do/while` loop, fuel-indexed.  The list
`stack` is `curveStack` with the head as the vector's last element (the
stack top); `total` is the local `totalLength` accumulator.  `none` means
the fuel ran out (or a pop from an empty stack, which the C++ code never
performs because the stack always holds the sentinel copy of the input). -/
def curveLoop {C : Type} [CurveType C] :
    ℕ → PathTraversalState → C → List C → ℝ → Option (ℝ × PathTraversalState)
  | 0, _, _, _, _ => none
  | Nat.succ n, st, curve, stack, total =>
    let length := CurveType.approximateDistance curve
    if length - distanceLine (CurveType.startP curve) (CurveType.endP curve) >
        kPathSegmentLengthTolerance then
      curveLoop n st (CurveType.split curve).1
        ((CurveType.split curve).2 :: stack) total
    else
      let total' := total + length
      if st.m_action = TraversalPointAtLength ∨
         st.m_action = TraversalNormalAngleAtLength then
        let st' := { st with m_previous := CurveType.startP curve,
                             m_current := CurveType.endP curve }
        if st.m_totalLength + total' > st.m_desiredLength then
          some (total', st')
        else
          match stack with
          | [] => none
          | top :: rest =>
            if rest.isEmpty then some (total', st')
            else curveLoop n st' top rest total'
      else
        match stack with
        | [] => none
        | top :: rest =>
          if rest.isEmpty then some (total', st)
          else curveLoop n st top rest total'

/-- `curveLength(traversalState, curve)`: the loop started with the stack
holding a copy of the input curve and a zero running length. -/
def curveLength {C : Type} [CurveType C] (fuel : ℕ)
    (st : PathTraversalState) (curve : C) : Option (ℝ × PathTraversalState) :=
  curveLoop fuel st curve [curve] 0

/-- The purely geometric version of the loop (no traversal state, hence no
early return): what `curveLength` computes under the `TotalLength` action. -/
def pureLoop {C : Type} [CurveType C] : ℕ → C → List C → ℝ → Option ℝ
  | 0, _, _, _ => none
  | Nat.succ n, curve, stack, total =>
    let length := CurveType.approximateDistance curve
    if length - distanceLine (CurveType.startP curve) (CurveType.endP curve) >
        kPathSegmentLengthTolerance then
      pureLoop n (CurveType.split curve).1
        ((CurveType.split curve).2 :: stack) total
    else
      let total' := total + length
      match stack with
      | [] => none
      | top :: rest =>
        if rest.isEmpty then some total' else pureLoop n top rest total'

/-- The naive recursive definition of adaptive curve length: a flat piece
contributes its `approximateDistance`, a curved piece the sum of its two
halves.  This is the reference definition the explicit-stack loop is
compared against. -/
def recLen {C : Type} [CurveType C] : ℕ → C → Option ℝ
  | 0, _ => none
  | Nat.succ n, c =>
    if CurveType.approximateDistance c -
        distanceLine (CurveType.startP c) (CurveType.endP c) ≤
        kPathSegmentLengthTolerance then
      some (CurveType.approximateDistance c)
    else
      match recLen n (CurveType.split c).1, recLen n (CurveType.split c).2 with
      | some a, some b => some (a + b)
      | _, _ => none

/-- `PathTraversalState::closeSubpath`: distance to the subpath start,
computed before `m_start`, `m_control1`, `m_control2` are reset. -/
def PathTraversalState.closeSubpath (s : PathTraversalState) :
    ℝ × PathTraversalState :=
  let distance := distanceLine s.m_current s.m_start
  (distance, { s with m_start := s.m_current, m_control1 := s.m_current,
                      m_control2 := s.m_current })

/-- `PathTraversalState::moveTo`. -/
def PathTraversalState.moveTo (s : PathTraversalState) (point : FloatPoint) :
    ℝ × PathTraversalState :=
  (0, { s with m_current := point, m_start := point, m_control1 := point,
               m_control2 := point })

/-- `PathTraversalState::lineTo`. -/
def PathTraversalState.lineTo (s : PathTraversalState) (point : FloatPoint) :
    ℝ × PathTraversalState :=
  (distanceLine s.m_current point,
   { s with m_current := point, m_control1 := point, m_control2 := point })

/-- `PathTraversalState::quadraticBezierTo`. -/
def PathTraversalState.quadraticBezierTo (fuel : ℕ) (s : PathTraversalState)
    (newControl newEnd : FloatPoint) : Option (ℝ × PathTraversalState) :=
  (curveLength fuel s (QuadraticBezier.mk s.m_current newControl newEnd)).map
    fun out =>
      let s1 := { out.2 with m_control1 := newControl, m_control2 := newEnd }
      (out.1,
        if s1.m_action ≠ TraversalPointAtLength ∧
           s1.m_action ≠ TraversalNormalAngleAtLength then
          { s1 with m_current := newEnd }
        else s1)

/-- `PathTraversalState::cubicBezierTo` (note the source stores `newEnd`
into `m_control1` and `newControl2` into `m_control2`). -/
def PathTraversalState.cubicBezierTo (fuel : ℕ) (s : PathTraversalState)
    (newControl1 newControl2 newEnd : FloatPoint) :
    Option (ℝ × PathTraversalState) :=
  (curveLength fuel s
      (CubicBezier.mk s.m_current newControl1 newControl2 newEnd)).map
    fun out =>
      let s1 := { out.2 with m_control1 := newEnd, m_control2 := newControl2 }
      (out.1,
        if s1.m_action ≠ TraversalPointAtLength ∧
           s1.m_action ≠ TraversalNormalAngleAtLength then
          { s1 with m_current := newEnd }
        else s1)

/-- A path segment command, as issued by the external path iterator. -/
inductive PathSegment where
  | moveToSeg (p : FloatPoint)
  | lineToSeg (p : FloatPoint)
  | quadSeg (c e : FloatPoint)
  | cubicSeg (c1 c2 e : FloatPoint)
  | closeSeg

/-- Modelled from the spec: the dispatch of one segment command to the
matching `PathTraversalState` operation, performed by the external path
iterator (WebCore's `Path` applier), which is not among the given sources. -/
def processSegment (fuel : ℕ) (st : PathTraversalState) :
    PathSegment → Option (ℝ × PathTraversalState)
  | PathSegment.moveToSeg p => some (st.moveTo p)
  | PathSegment.lineToSeg p => some (st.lineTo p)
  | PathSegment.quadSeg c e => st.quadraticBezierTo fuel c e
  | PathSegment.cubicSeg c1 c2 e => st.cubicBezierTo fuel c1 c2 e
  | PathSegment.closeSeg => some st.closeSubpath

/-- Modelled from the spec: one step of the external path iterator.  Each
returned incremental length is added into `m_totalLength` before the next
segment call; for point/angle queries the iterator sets `m_success` once
the accumulated length reaches `m_desiredLength`, and once `m_success` is
set it stops processing further segments (modelled by the skip branch). -/
def driverStep (fuel : ℕ) (st : PathTraversalState) (seg : PathSegment) :
    Option PathTraversalState :=
  if st.m_success then some st
  else
    (processSegment fuel st seg).map fun out =>
      let st2 := { out.2 with m_totalLength := out.2.m_totalLength + out.1 }
      if (st2.m_action = TraversalPointAtLength ∨
          st2.m_action = TraversalNormalAngleAtLength) ∧
         st2.m_totalLength ≥ st2.m_desiredLength then
        { st2 with m_success := true }
      else st2

/-- Modelled from the spec: the external path iterator's full pass over the
path's segment commands in geometric order. -/
def traversePath (fuel : ℕ) : PathTraversalState → List PathSegment →
    Option PathTraversalState
  | st, [] => some st
  | st, seg :: rest =>
    (driverStep fuel st seg).bind fun st' => traversePath fuel st' rest

end

noncomputable section

/-- The complex number carrying a point's coordinates (used to derive the
triangle inequality for `distanceLine`). -/
def FloatPoint.toC (p : FloatPoint) : ℂ := ⟨p.x, p.y⟩

theorem distanceLine_eq_abs (p q : FloatPoint) :
    distanceLine p q = Complex.abs (q.toC - p.toC) := by
  rw [distanceLine, Complex.abs_apply, Complex.normSq_apply]
  simp [FloatPoint.toC]

theorem distanceLine_nonneg (p q : FloatPoint) : 0 ≤ distanceLine p q :=
  Real.sqrt_nonneg _

theorem distanceLine_self (p : FloatPoint) : distanceLine p p = 0 := by
  simp [distanceLine]

theorem distanceLine_triangle (p q r : FloatPoint) :
    distanceLine p r ≤ distanceLine p q + distanceLine q r := by
  rw [distanceLine_eq_abs, distanceLine_eq_abs, distanceLine_eq_abs]
  have h : r.toC - p.toC = (q.toC - p.toC) + (r.toC - q.toC) := by ring
  rw [h]
  exact Complex.abs.add_le _ _

/-- The properties of the two curve kinds that the subdivision loop's
correctness rests on: `split` preserves the endpoints and glues at a
junction point, and the control polygon dominates the chord. -/
class CurveLaws (C : Type) [CurveType C] : Prop where
  startP_split_fst : ∀ c : C,
    CurveType.startP (CurveType.split c).1 = CurveType.startP c
  endP_split_fst : ∀ c : C,
    CurveType.endP (CurveType.split c).1 = CurveType.startP (CurveType.split c).2
  endP_split_snd : ∀ c : C,
    CurveType.endP (CurveType.split c).2 = CurveType.endP c
  chord_le_approx : ∀ c : C,
    distanceLine (CurveType.startP c) (CurveType.endP c) ≤
      CurveType.approximateDistance c
  approx_nonneg : ∀ c : C, 0 ≤ CurveType.approximateDistance c

instance : CurveLaws QuadraticBezier where
  startP_split_fst c := rfl
  endP_split_fst c := rfl
  endP_split_snd c := rfl
  chord_le_approx c := distanceLine_triangle _ _ _
  approx_nonneg c :=
    add_nonneg (distanceLine_nonneg _ _) (distanceLine_nonneg _ _)

instance : CurveLaws CubicBezier where
  startP_split_fst c := rfl
  endP_split_fst c := rfl
  endP_split_snd c := rfl
  chord_le_approx c := by
    calc distanceLine c.start c.endP ≤
        distanceLine c.start c.control1 + distanceLine c.control1 c.endP :=
          distanceLine_triangle _ _ _
      _ ≤ distanceLine c.start c.control1 +
            (distanceLine c.control1 c.control2 +
              distanceLine c.control2 c.endP) := by
          exact add_le_add_left (distanceLine_triangle _ _ _) _
      _ = CubicBezier.approximateDistance c := by
          rw [CubicBezier.approximateDistance]; ring
  approx_nonneg c :=
    add_nonneg
      (add_nonneg (distanceLine_nonneg _ _) (distanceLine_nonneg _ _))
      (distanceLine_nonneg _ _)

theorem quadEval_split_left (q : QuadraticBezier) (t : ℝ) :
    q.split.1.eval t = q.eval (t / 2) := by
  ext <;> simp [QuadraticBezier.eval, QuadraticBezier.split, midPoint] <;> ring

theorem quadEval_split_right (q : QuadraticBezier) (t : ℝ) :
    q.split.2.eval t = q.eval ((1 + t) / 2) := by
  ext <;> simp [QuadraticBezier.eval, QuadraticBezier.split, midPoint] <;> ring

theorem cubicEval_split_left (c : CubicBezier) (t : ℝ) :
    c.split.1.eval t = c.eval (t / 2) := by
  ext <;> simp [CubicBezier.eval, CubicBezier.split, midPoint] <;> ring

theorem cubicEval_split_right (c : CubicBezier) (t : ℝ) :
    c.split.2.eval t = c.eval ((1 + t) / 2) := by
  ext <;> simp [CubicBezier.eval, CubicBezier.split, midPoint] <;> ring

end

noncomputable section

theorem curveLoop_zero {C : Type} [CurveType C] (st : PathTraversalState)
    (c : C) (stack : List C) (total : ℝ) :
    curveLoop 0 st c stack total = none := rfl

theorem curveLoop_split {C : Type} [CurveType C] (n : ℕ)
    (st : PathTraversalState) (c : C) (stack : List C) (total : ℝ)
    (hf : CurveType.approximateDistance c -
        distanceLine (CurveType.startP c) (CurveType.endP c) >
        kPathSegmentLengthTolerance) :
    curveLoop (n + 1) st c stack total =
      curveLoop n st (CurveType.split c).1
        ((CurveType.split c).2 :: stack) total := by
  simp only [curveLoop, if_pos hf]

theorem curveLoop_flat_total {C : Type} [CurveType C] (n : ℕ)
    (st : PathTraversalState) (c top : C) (rest : List C) (total : ℝ)
    (hf : ¬ (CurveType.approximateDistance c -
        distanceLine (CurveType.startP c) (CurveType.endP c) >
        kPathSegmentLengthTolerance))
    (ha : ¬ (st.m_action = TraversalPointAtLength ∨
        st.m_action = TraversalNormalAngleAtLength)) :
    curveLoop (n + 1) st c (top :: rest) total =
      if rest.isEmpty then some (total + CurveType.approximateDistance c, st)
      else curveLoop n st top rest (total + CurveType.approximateDistance c) := by
  simp only [curveLoop, if_neg hf, if_neg ha]

theorem curveLoop_flat_total_nil {C : Type} [CurveType C] (n : ℕ)
    (st : PathTraversalState) (c : C) (total : ℝ)
    (hf : ¬ (CurveType.approximateDistance c -
        distanceLine (CurveType.startP c) (CurveType.endP c) >
        kPathSegmentLengthTolerance))
    (ha : ¬ (st.m_action = TraversalPointAtLength ∨
        st.m_action = TraversalNormalAngleAtLength)) :
    curveLoop (n + 1) st c [] total = none := by
  simp only [curveLoop, if_neg hf, if_neg ha]

theorem curveLoop_flat_point_ret {C : Type} [CurveType C] (n : ℕ)
    (st : PathTraversalState) (c : C) (stack : List C) (total : ℝ)
    (hf : ¬ (CurveType.approximateDistance c -
        distanceLine (CurveType.startP c) (CurveType.endP c) >
        kPathSegmentLengthTolerance))
    (ha : st.m_action = TraversalPointAtLength ∨
        st.m_action = TraversalNormalAngleAtLength)
    (hd : st.m_totalLength + (total + CurveType.approximateDistance c) >
        st.m_desiredLength) :
    curveLoop (n + 1) st c stack total =
      some (total + CurveType.approximateDistance c,
        { st with m_previous := CurveType.startP c,
                  m_current := CurveType.endP c }) := by
  simp only [curveLoop, if_neg hf, if_pos ha, if_pos hd]

theorem curveLoop_flat_point_cont {C : Type} [CurveType C] (n : ℕ)
    (st : PathTraversalState) (c top : C) (rest : List C) (total : ℝ)
    (hf : ¬ (CurveType.approximateDistance c -
        distanceLine (CurveType.startP c) (CurveType.endP c) >
        kPathSegmentLengthTolerance))
    (ha : st.m_action = TraversalPointAtLength ∨
        st.m_action = TraversalNormalAngleAtLength)
    (hd : ¬ (st.m_totalLength + (total + CurveType.approximateDistance c) >
        st.m_desiredLength)) :
    curveLoop (n + 1) st c (top :: rest) total =
      if rest.isEmpty then
        some (total + CurveType.approximateDistance c,
          { st with m_previous := CurveType.startP c,
                    m_current := CurveType.endP c })
      else
        curveLoop n
          { st with m_previous := CurveType.startP c,
                    m_current := CurveType.endP c } top rest
          (total + CurveType.approximateDistance c) := by
  simp only [curveLoop, if_neg hf, if_pos ha, if_neg hd]

theorem curveLoop_flat_point_nil {C : Type} [CurveType C] (n : ℕ)
    (st : PathTraversalState) (c : C) (total : ℝ)
    (hf : ¬ (CurveType.approximateDistance c -
        distanceLine (CurveType.startP c) (CurveType.endP c) >
        kPathSegmentLengthTolerance))
    (ha : st.m_action = TraversalPointAtLength ∨
        st.m_action = TraversalNormalAngleAtLength)
    (hd : ¬ (st.m_totalLength + (total + CurveType.approximateDistance c) >
        st.m_desiredLength)) :
    curveLoop (n + 1) st c [] total = none := by
  simp only [curveLoop, if_neg hf, if_pos ha, if_neg hd]

theorem pureLoop_zero {C : Type} [CurveType C] (c : C) (stack : List C)
    (total : ℝ) : pureLoop 0 c stack total = none := rfl

theorem pureLoop_split {C : Type} [CurveType C] (n : ℕ) (c : C)
    (stack : List C) (total : ℝ)
    (hf : CurveType.approximateDistance c -
        distanceLine (CurveType.startP c) (CurveType.endP c) >
        kPathSegmentLengthTolerance) :
    pureLoop (n + 1) c stack total =
      pureLoop n (CurveType.split c).1 ((CurveType.split c).2 :: stack) total := by
  simp only [pureLoop, if_pos hf]

theorem pureLoop_flat {C : Type} [CurveType C] (n : ℕ) (c top : C)
    (rest : List C) (total : ℝ)
    (hf : ¬ (CurveType.approximateDistance c -
        distanceLine (CurveType.startP c) (CurveType.endP c) >
        kPathSegmentLengthTolerance)) :
    pureLoop (n + 1) c (top :: rest) total =
      if rest.isEmpty then some (total + CurveType.approximateDistance c)
      else pureLoop n top rest (total + CurveType.approximateDistance c) := by
  simp only [pureLoop, if_neg hf]

theorem pureLoop_flat_nil {C : Type} [CurveType C] (n : ℕ) (c : C) (total : ℝ)
    (hf : ¬ (CurveType.approximateDistance c -
        distanceLine (CurveType.startP c) (CurveType.endP c) >
        kPathSegmentLengthTolerance)) :
    pureLoop (n + 1) c [] total = none := by
  simp only [pureLoop, if_neg hf]

theorem recLen_zero {C : Type} [CurveType C] (c : C) : recLen 0 c = none := rfl

theorem recLen_flat {C : Type} [CurveType C] (n : ℕ) (c : C)
    (hf : CurveType.approximateDistance c -
        distanceLine (CurveType.startP c) (CurveType.endP c) ≤
        kPathSegmentLengthTolerance) :
    recLen (n + 1) c = some (CurveType.approximateDistance c) := by
  simp only [recLen, if_pos hf]

theorem recLen_curved {C : Type} [CurveType C] (n : ℕ) (c : C)
    (hf : ¬ (CurveType.approximateDistance c -
        distanceLine (CurveType.startP c) (CurveType.endP c) ≤
        kPathSegmentLengthTolerance)) :
    recLen (n + 1) c =
      match recLen n (CurveType.split c).1, recLen n (CurveType.split c).2 with
      | some a, some b => some (a + b)
      | _, _ => none := by
  simp only [recLen, if_neg hf]

end

noncomputable section

theorem pureLoop_le {C : Type} [CurveType C] [CurveLaws C] :
    ∀ (n : ℕ) (c : C) (stack : List C) (total r : ℝ),
      pureLoop n c stack total = some r → total ≤ r := by
  intro n
  induction n with
  | zero => intro c stack total r h; simp [pureLoop_zero] at h
  | succ n ih =>
    intro c stack total r h
    by_cases hf : CurveType.approximateDistance c -
        distanceLine (CurveType.startP c) (CurveType.endP c) >
        kPathSegmentLengthTolerance
    · rw [pureLoop_split n c stack total hf] at h
      exact ih _ _ _ _ h
    · cases stack with
      | nil => rw [pureLoop_flat_nil n c total hf] at h; exact absurd h (by simp)
      | cons top rest =>
        rw [pureLoop_flat n c top rest total hf] at h
        have htot : total ≤ total + CurveType.approximateDistance c :=
          le_add_of_nonneg_right (CurveLaws.approx_nonneg c)
        by_cases he : rest.isEmpty
        · rw [if_pos he] at h
          exact (Option.some.inj h) ▸ htot
        · rw [if_neg he] at h
          exact htot.trans (ih _ _ _ _ h)

/-- All fields of the traversal state other than `m_previous` and
`m_current` agree. -/
def sameFrame (st st' : PathTraversalState) : Prop :=
  st'.m_action = st.m_action ∧ st'.m_success = st.m_success ∧
  st'.m_start = st.m_start ∧ st'.m_control1 = st.m_control1 ∧
  st'.m_control2 = st.m_control2 ∧ st'.m_totalLength = st.m_totalLength ∧
  st'.m_segmentIndex = st.m_segmentIndex ∧
  st'.m_desiredLength = st.m_desiredLength ∧
  st'.m_normalAngle = st.m_normalAngle

theorem sameFrame_refl (st : PathTraversalState) : sameFrame st st := by
  simp [sameFrame]

theorem sameFrame_update (st : PathTraversalState) (p q : FloatPoint) :
    sameFrame st { st with m_previous := p, m_current := q } := by
  simp [sameFrame]

theorem sameFrame_trans {s1 s2 s3 : PathTraversalState}
    (h1 : sameFrame s1 s2) (h2 : sameFrame s2 s3) : sameFrame s1 s3 := by
  obtain ⟨a1, b1, c1, d1, e1, f1, g1, i1, j1⟩ := h1
  obtain ⟨a2, b2, c2, d2, e2, f2, g2, i2, j2⟩ := h2
  exact ⟨a2.trans a1, b2.trans b1, c2.trans c1, d2.trans d1, e2.trans e1,
    f2.trans f1, g2.trans g1, i2.trans i1, j2.trans j1⟩

theorem curveLoop_frame {C : Type} [CurveType C] :
    ∀ (n : ℕ) (st : PathTraversalState) (c : C) (stack : List C)
      (total r : ℝ) (st' : PathTraversalState),
      curveLoop n st c stack total = some (r, st') → sameFrame st st' := by
  intro n
  induction n with
  | zero => intro st c stack total r st' h; simp [curveLoop_zero] at h
  | succ n ih =>
    intro st c stack total r st' h
    by_cases hf : CurveType.approximateDistance c -
        distanceLine (CurveType.startP c) (CurveType.endP c) >
        kPathSegmentLengthTolerance
    · rw [curveLoop_split n st c stack total hf] at h
      exact ih _ _ _ _ _ _ h
    · by_cases ha : st.m_action = TraversalPointAtLength ∨
          st.m_action = TraversalNormalAngleAtLength
      · by_cases hd : st.m_totalLength +
            (total + CurveType.approximateDistance c) > st.m_desiredLength
        · rw [curveLoop_flat_point_ret n st c stack total hf ha hd] at h
          obtain ⟨-, hst⟩ := Prod.mk.injEq .. ▸ Option.some.inj h
          exact hst ▸ sameFrame_update st _ _
        · cases stack with
          | nil =>
            rw [curveLoop_flat_point_nil n st c total hf ha hd] at h
            exact absurd h (by simp)
          | cons top rest =>
            rw [curveLoop_flat_point_cont n st c top rest total hf ha hd] at h
            by_cases he : rest.isEmpty
            · rw [if_pos he] at h
              obtain ⟨-, hst⟩ := Prod.mk.injEq .. ▸ Option.some.inj h
              exact hst ▸ sameFrame_update st _ _
            · rw [if_neg he] at h
              exact sameFrame_trans (sameFrame_update st _ _) (ih _ _ _ _ _ _ h)
      · cases stack with
        | nil =>
          rw [curveLoop_flat_total_nil n st c total hf ha] at h
          exact absurd h (by simp)
        | cons top rest =>
          rw [curveLoop_flat_total n st c top rest total hf ha] at h
          by_cases he : rest.isEmpty
          · rw [if_pos he] at h
            obtain ⟨-, hst⟩ := Prod.mk.injEq .. ▸ Option.some.inj h
            exact hst ▸ sameFrame_refl st
          · rw [if_neg he] at h
            exact ih _ _ _ _ _ _ h

theorem notPointAction {st : PathTraversalState}
    (h : st.m_action = TraversalTotalLength) :
    ¬ (st.m_action = TraversalPointAtLength ∨
       st.m_action = TraversalNormalAngleAtLength) := by
  rw [h]; rintro (hc | hc) <;> exact PathTraversalAction.noConfusion hc

theorem curveLoop_total_eq_pure {C : Type} [CurveType C] :
    ∀ (n : ℕ) (st : PathTraversalState) (c : C) (stack : List C)
      (total r : ℝ) (st' : PathTraversalState),
      st.m_action = TraversalTotalLength →
      curveLoop n st c stack total = some (r, st') →
      pureLoop n c stack total = some r ∧ st' = st := by
  intro n
  induction n with
  | zero => intro st c stack total r st' _ h; simp [curveLoop_zero] at h
  | succ n ih =>
    intro st c stack total r st' hact h
    by_cases hf : CurveType.approximateDistance c -
        distanceLine (CurveType.startP c) (CurveType.endP c) >
        kPathSegmentLengthTolerance
    · rw [curveLoop_split n st c stack total hf] at h
      rw [pureLoop_split n c stack total hf]
      exact ih _ _ _ _ _ _ hact h
    · have ha := notPointAction hact
      cases stack with
      | nil =>
        rw [curveLoop_flat_total_nil n st c total hf ha] at h
        exact absurd h (by simp)
      | cons top rest =>
        rw [curveLoop_flat_total n st c top rest total hf ha] at h
        rw [pureLoop_flat n c top rest total hf]
        by_cases he : rest.isEmpty
        · rw [if_pos he] at h ⊢
          obtain ⟨hr, hst⟩ := Prod.mk.injEq .. ▸ Option.some.inj h
          exact ⟨hr ▸ rfl, hst.symm⟩
        · rw [if_neg he] at h ⊢
          exact ih _ _ _ _ _ _ hact h

theorem pure_to_curveLoop_total {C : Type} [CurveType C] :
    ∀ (n : ℕ) (st : PathTraversalState) (c : C) (stack : List C)
      (total r : ℝ),
      st.m_action = TraversalTotalLength →
      pureLoop n c stack total = some r →
      curveLoop n st c stack total = some (r, st) := by
  intro n
  induction n with
  | zero => intro st c stack total r _ h; simp [pureLoop_zero] at h
  | succ n ih =>
    intro st c stack total r hact h
    by_cases hf : CurveType.approximateDistance c -
        distanceLine (CurveType.startP c) (CurveType.endP c) >
        kPathSegmentLengthTolerance
    · rw [pureLoop_split n c stack total hf] at h
      rw [curveLoop_split n st c stack total hf]
      exact ih _ _ _ _ _ hact h
    · have ha := notPointAction hact
      cases stack with
      | nil =>
        rw [pureLoop_flat_nil n c total hf] at h
        exact absurd h (by simp)
      | cons top rest =>
        rw [pureLoop_flat n c top rest total hf] at h
        rw [curveLoop_flat_total n st c top rest total hf ha]
        by_cases he : rest.isEmpty
        · rw [if_pos he] at h ⊢
          exact (Option.some.inj h) ▸ rfl
        · rw [if_neg he] at h ⊢
          exact ih _ _ _ _ _ hact h

end

noncomputable section

/-- The pieces in the list link the point `p` to the point `q`: each piece
starts where the previous one ended. -/
def ChainTo {C : Type} [CurveType C] : FloatPoint → List C → FloatPoint → Prop
  | p, [], q => p = q
  | p, x :: xs, q => CurveType.startP x = p ∧ ChainTo (CurveType.endP x) xs q

theorem pureLoop_chord_bound {C : Type} [CurveType C] [CurveLaws C] :
    ∀ (n : ℕ) (c : C) (stack : List C) (total r : ℝ) (E : FloatPoint),
      ChainTo (CurveType.startP c) (c :: stack.dropLast) E →
      stack ≠ [] →
      pureLoop n c stack total = some r →
      total + distanceLine (CurveType.startP c) E ≤ r := by
  intro n
  induction n with
  | zero => intro c stack total r E _ _ h; simp [pureLoop_zero] at h
  | succ n ih =>
    intro c stack total r E hchain hne h
    by_cases hf : CurveType.approximateDistance c -
        distanceLine (CurveType.startP c) (CurveType.endP c) >
        kPathSegmentLengthTolerance
    · rw [pureLoop_split n c stack total hf] at h
      obtain ⟨-, hrest⟩ := hchain
      cases stack with
      | nil => exact absurd rfl hne
      | cons s ss =>
        have hchain' : ChainTo (CurveType.startP (CurveType.split c).1)
            ((CurveType.split c).1 :: ((CurveType.split c).2 :: s :: ss).dropLast)
            E := by
          have hd : ((CurveType.split c).2 :: s :: ss).dropLast =
              (CurveType.split c).2 :: (s :: ss).dropLast := rfl
          rw [hd]
          refine ⟨rfl, ?_, ?_⟩
          · rw [CurveLaws.endP_split_fst c]
          · rw [CurveLaws.endP_split_snd c]
            exact hrest
        have := ih (CurveType.split c).1 ((CurveType.split c).2 :: s :: ss)
          total r E hchain' (by simp) h
        rwa [CurveLaws.startP_split_fst c] at this
    · cases stack with
      | nil => exact absurd rfl hne
      | cons top rest =>
        rw [pureLoop_flat n c top rest total hf] at h
        cases rest with
        | nil =>
          rw [if_pos (by simp : ([] : List C).isEmpty = true)] at h
          obtain ⟨-, hlast⟩ := hchain
          have hE : CurveType.endP c = E := hlast
          have hchord := CurveLaws.chord_le_approx c
          have hr := Option.some.inj h
          rw [← hE, ← hr]
          linarith
        | cons r1 rs =>
          rw [if_neg (by simp)] at h
          obtain ⟨-, hs, hrest⟩ := hchain
          have hchain' : ChainTo (CurveType.startP top)
              (top :: (r1 :: rs).dropLast) E := ⟨rfl, hrest⟩
          have hih := ih top (r1 :: rs)
            (total + CurveType.approximateDistance c) r E hchain' (by simp) h
          have htri : distanceLine (CurveType.startP c) E ≤
              distanceLine (CurveType.startP c) (CurveType.endP c) +
                distanceLine (CurveType.endP c) E :=
            distanceLine_triangle _ _ _
          have hchord := CurveLaws.chord_le_approx c
          rw [hs] at hih
          linarith

theorem pureLoop_flat_sum {C : Type} [CurveType C] :
    ∀ (n : ℕ) (c : C) (stack : List C) (total r : ℝ),
      pureLoop n c stack total = some r →
      ∃ ps : List C, ps ≠ [] ∧
        (∀ p ∈ ps, CurveType.approximateDistance p -
          distanceLine (CurveType.startP p) (CurveType.endP p) ≤
          kPathSegmentLengthTolerance) ∧
        r = total + (ps.map CurveType.approximateDistance).sum := by
  intro n
  induction n with
  | zero => intro c stack total r h; simp [pureLoop_zero] at h
  | succ n ih =>
    intro c stack total r h
    by_cases hf : CurveType.approximateDistance c -
        distanceLine (CurveType.startP c) (CurveType.endP c) >
        kPathSegmentLengthTolerance
    · rw [pureLoop_split n c stack total hf] at h
      exact ih _ _ _ _ h
    · cases stack with
      | nil => rw [pureLoop_flat_nil n c total hf] at h; exact absurd h (by simp)
      | cons top rest =>
        rw [pureLoop_flat n c top rest total hf] at h
        by_cases he : rest.isEmpty
        · rw [if_pos he] at h
          refine ⟨[c], by simp, ?_, ?_⟩
          · intro p hp
            rw [List.mem_singleton] at hp
            rw [hp]
            exact not_lt.mp hf
          · rw [← Option.some.inj h]; simp
        · rw [if_neg he] at h
          obtain ⟨ps, hne, hflat, hsum⟩ := ih _ _ _ _ h
          refine ⟨c :: ps, by simp, ?_, ?_⟩
          · intro p hp
            rcases List.mem_cons.mp hp with hp | hp
            · rw [hp]; exact not_lt.mp hf
            · exact hflat p hp
          · rw [hsum]; simp; ring

end

noncomputable section

theorem curveLoop_point_notrunc {C : Type} [CurveType C] [CurveLaws C] :
    ∀ (n : ℕ) (st : PathTraversalState) (c : C) (stack : List C)
      (total r : ℝ) (st' : PathTraversalState) (E : FloatPoint),
      (st.m_action = TraversalPointAtLength ∨
       st.m_action = TraversalNormalAngleAtLength) →
      ChainTo (CurveType.startP c) (c :: stack.dropLast) E →
      stack ≠ [] →
      st.m_totalLength + r ≤ st.m_desiredLength →
      curveLoop n st c stack total = some (r, st') →
      pureLoop n c stack total = some r ∧ st'.m_current = E := by
  intro n
  induction n with
  | zero => intro st c stack total r st' E _ _ _ _ h; simp [curveLoop_zero] at h
  | succ n ih =>
    intro st c stack total r st' E ha hchain hne hd h
    by_cases hf : CurveType.approximateDistance c -
        distanceLine (CurveType.startP c) (CurveType.endP c) >
        kPathSegmentLengthTolerance
    · rw [curveLoop_split n st c stack total hf] at h
      rw [pureLoop_split n c stack total hf]
      obtain ⟨-, hrest⟩ := hchain
      cases stack with
      | nil => exact absurd rfl hne
      | cons s ss =>
        have hchain' : ChainTo (CurveType.startP (CurveType.split c).1)
            ((CurveType.split c).1 ::
              ((CurveType.split c).2 :: s :: ss).dropLast) E := by
          have hdl : ((CurveType.split c).2 :: s :: ss).dropLast =
              (CurveType.split c).2 :: (s :: ss).dropLast := rfl
          rw [hdl]
          refine ⟨rfl, ?_, ?_⟩
          · rw [CurveLaws.endP_split_fst c]
          · rw [CurveLaws.endP_split_snd c]; exact hrest
        exact ih st _ _ total r st' E ha hchain' (by simp) hd h
    · by_cases hdc : st.m_totalLength +
          (total + CurveType.approximateDistance c) > st.m_desiredLength
      · rw [curveLoop_flat_point_ret n st c stack total hf ha hdc] at h
        obtain ⟨hr, -⟩ := Prod.mk.injEq .. ▸ Option.some.inj h
        rw [← hr] at hd
        linarith
      · cases stack with
        | nil =>
          rw [curveLoop_flat_point_nil n st c total hf ha hdc] at h
          exact absurd h (by simp)
        | cons top rest =>
          rw [curveLoop_flat_point_cont n st c top rest total hf ha hdc] at h
          rw [pureLoop_flat n c top rest total hf]
          cases rest with
          | nil =>
            rw [if_pos (by simp : ([] : List C).isEmpty = true)] at h ⊢
            obtain ⟨hr, hst⟩ := Prod.mk.injEq .. ▸ Option.some.inj h
            obtain ⟨-, hE⟩ := hchain
            refine ⟨hr ▸ rfl, ?_⟩
            rw [← hst]
            exact hE
          | cons r1 rs =>
            rw [if_neg (by simp : ¬ ((r1 :: rs) : List C).isEmpty = true)]
              at h ⊢
            obtain ⟨-, hs, hrest⟩ := hchain
            have hchain' : ChainTo (CurveType.startP top)
                (top :: (r1 :: rs).dropLast) E := ⟨rfl, hrest⟩
            exact ih { st with m_previous := CurveType.startP c,
                               m_current := CurveType.endP c }
              top (r1 :: rs) _ r st' E ha hchain' (by simp) hd h

theorem curveLoop_point_le_pure {C : Type} [CurveType C] [CurveLaws C] :
    ∀ (n m : ℕ) (st : PathTraversalState) (c : C) (stack : List C)
      (total r R : ℝ) (st' : PathTraversalState),
      curveLoop n st c stack total = some (r, st') →
      pureLoop m c stack total = some R →
      r ≤ R := by
  intro n
  induction n with
  | zero => intro m st c stack total r R st' h _; simp [curveLoop_zero] at h
  | succ n ih =>
    intro m st c stack total r R st' h hp
    cases m with
    | zero => simp [pureLoop_zero] at hp
    | succ m =>
      by_cases hf : CurveType.approximateDistance c -
          distanceLine (CurveType.startP c) (CurveType.endP c) >
          kPathSegmentLengthTolerance
      · rw [curveLoop_split n st c stack total hf] at h
        rw [pureLoop_split m c stack total hf] at hp
        exact ih m _ _ _ _ _ _ _ h hp
      · cases stack with
        | nil =>
          rw [pureLoop_flat_nil m c total hf] at hp
          exact absurd hp (by simp)
        | cons top rest =>
          rw [pureLoop_flat m c top rest total hf] at hp
          by_cases ha : st.m_action = TraversalPointAtLength ∨
              st.m_action = TraversalNormalAngleAtLength
          · by_cases hdc : st.m_totalLength +
                (total + CurveType.approximateDistance c) > st.m_desiredLength
            · rw [curveLoop_flat_point_ret n st c (top :: rest) total
                hf ha hdc] at h
              obtain ⟨hr, -⟩ := Prod.mk.injEq .. ▸ Option.some.inj h
              by_cases he : rest.isEmpty
              · rw [if_pos he] at hp
                rw [← hr, ← Option.some.inj hp]
              · rw [if_neg he] at hp
                rw [← hr]
                exact pureLoop_le m top rest _ R hp
            · rw [curveLoop_flat_point_cont n st c top rest total
                hf ha hdc] at h
              by_cases he : rest.isEmpty
              · rw [if_pos he] at h hp
                obtain ⟨hr, -⟩ := Prod.mk.injEq .. ▸ Option.some.inj h
                rw [← hr, ← Option.some.inj hp]
              · rw [if_neg he] at h hp
                exact ih m _ _ _ _ _ _ _ h hp
          · rw [curveLoop_flat_total n st c top rest total hf ha] at h
            by_cases he : rest.isEmpty
            · rw [if_pos he] at h hp
              obtain ⟨hr, -⟩ := Prod.mk.injEq .. ▸ Option.some.inj h
              rw [← hr, ← Option.some.inj hp]
            · rw [if_neg he] at h hp
              exact ih m _ _ _ _ _ _ _ h hp

end

noncomputable section

theorem recLen_mono {C : Type} [CurveType C] :
    ∀ (m m' : ℕ) (c : C) (r : ℝ), m ≤ m' →
      recLen m c = some r → recLen m' c = some r := by
  intro m
  induction m with
  | zero => intro m' c r _ h; simp [recLen_zero] at h
  | succ m ih =>
    intro m' c r hle h
    cases m' with
    | zero => omega
    | succ m' =>
      have hle' : m ≤ m' := Nat.succ_le_succ_iff.mp hle
      by_cases hf : CurveType.approximateDistance c -
          distanceLine (CurveType.startP c) (CurveType.endP c) ≤
          kPathSegmentLengthTolerance
      · rw [recLen_flat m c hf] at h
        rw [recLen_flat m' c hf]
        exact h
      · rw [recLen_curved m c hf] at h
        rw [recLen_curved m' c hf]
        cases hl : recLen m (CurveType.split c).1 with
        | none => rw [hl] at h; simp at h
        | some a =>
          cases hr2 : recLen m (CurveType.split c).2 with
          | none => rw [hl, hr2] at h; simp at h
          | some b =>
            rw [hl, hr2] at h
            rw [ih m' _ a hle' hl, ih m' _ b hle' hr2]
            exact h

/-- The continuation of the loop once the current piece's subtree is done:
popping the stack either exits (only the bottom sentinel is left, which
the loop discards unprocessed) or goes on with the popped piece. -/
def PopSpec {C : Type} [CurveType C] (v : ℝ) (stack : List C) (res : ℝ) :
    Prop :=
  ∃ top rest, stack = top :: rest ∧
    ((rest = [] ∧ res = v) ∨
     (rest ≠ [] ∧ ∃ k, pureLoop k top rest v = some res))

theorem recLen_to_pureLoop {C : Type} [CurveType C] :
    ∀ (m : ℕ) (c : C) (r : ℝ), recLen m c = some r →
      ∀ (stack : List C) (total res : ℝ),
        PopSpec (total + r) stack res →
        ∃ n, pureLoop n c stack total = some res := by
  intro m
  induction m with
  | zero => intro c r h; simp [recLen_zero] at h
  | succ m ih =>
    intro c r h stack total res hpop
    by_cases hf : CurveType.approximateDistance c -
        distanceLine (CurveType.startP c) (CurveType.endP c) ≤
        kPathSegmentLengthTolerance
    · rw [recLen_flat m c hf] at h
      have hr : r = CurveType.approximateDistance c := (Option.some.inj h).symm
      obtain ⟨top, rest, hstack, hcase⟩ := hpop
      rcases hcase with ⟨hrest, hres⟩ | ⟨hrest, k, hk⟩
      · refine ⟨1, ?_⟩
        rw [hstack, hrest]
        rw [pureLoop_flat 0 c top [] total (not_lt.mpr hf)]
        rw [if_pos (by simp : ([] : List C).isEmpty = true)]
        rw [hres, hr]
      · refine ⟨k + 1, ?_⟩
        rw [hstack]
        rw [pureLoop_flat k c top rest total (not_lt.mpr hf)]
        rw [if_neg (by simpa using hrest)]
        rw [← hr]
        exact hk
    · rw [recLen_curved m c hf] at h
      cases hl : recLen m (CurveType.split c).1 with
      | none => rw [hl] at h; simp at h
      | some a =>
        cases hr2 : recLen m (CurveType.split c).2 with
        | none => rw [hl, hr2] at h; simp at h
        | some b =>
          rw [hl, hr2] at h
          have hr : r = a + b := (Option.some.inj h).symm
          have hpop2 : PopSpec ((total + a) + b) stack res := by
            have heq : (total + a) + b = total + r := by rw [hr]; ring
            rw [heq]
            exact hpop
          obtain ⟨k2, hk2⟩ := ih (CurveType.split c).2 b hr2 stack
            (total + a) res hpop2
          obtain ⟨top, rest, hstack, -⟩ := hpop
          have hpop1 : PopSpec (total + a) ((CurveType.split c).2 :: stack)
              res :=
            ⟨(CurveType.split c).2, stack, rfl,
              Or.inr ⟨by rw [hstack]; simp, k2, hk2⟩⟩
          obtain ⟨k1, hk1⟩ := ih (CurveType.split c).1 a hl
            ((CurveType.split c).2 :: stack) total res hpop1
          refine ⟨k1 + 1, ?_⟩
          rw [pureLoop_split k1 c stack total (not_le.mp hf)]
          exact hk1

/-- Sum of naive recursive curve lengths over a list of curves. -/
inductive RecSum {C : Type} [CurveType C] : List C → ℝ → Prop where
  | nil : RecSum [] 0
  | cons {x : C} {xs : List C} {r t : ℝ} (m : ℕ) (hx : recLen m x = some r)
      (hxs : RecSum xs t) : RecSum (x :: xs) (r + t)

theorem pureLoop_to_recLen {C : Type} [CurveType C] :
    ∀ (n : ℕ) (c : C) (stack : List C) (total res : ℝ),
      stack ≠ [] →
      pureLoop n c stack total = some res →
      ∃ (m : ℕ) (r t : ℝ), recLen m c = some r ∧ RecSum stack.dropLast t ∧
        res = total + r + t := by
  intro n
  induction n with
  | zero => intro c stack total res _ h; simp [pureLoop_zero] at h
  | succ n ih =>
    intro c stack total res hne h
    by_cases hf : CurveType.approximateDistance c -
        distanceLine (CurveType.startP c) (CurveType.endP c) >
        kPathSegmentLengthTolerance
    · rw [pureLoop_split n c stack total hf] at h
      obtain ⟨m1, a, t1, hl, hsum, hres⟩ :=
        ih (CurveType.split c).1 ((CurveType.split c).2 :: stack) total res
          (by simp) h
      cases stack with
      | nil => exact absurd rfl hne
      | cons s ss =>
        have hdl : ((CurveType.split c).2 :: s :: ss).dropLast =
            (CurveType.split c).2 :: (s :: ss).dropLast := rfl
        rw [hdl] at hsum
        cases hsum with
        | cons m2 hx hxs =>
          rename_i b t
          refine ⟨max m1 m2 + 1, a + b, t, ?_, hxs, ?_⟩
          · rw [recLen_curved (max m1 m2) c (not_le.mpr hf)]
            rw [recLen_mono m1 (max m1 m2) _ a (le_max_left m1 m2) hl]
            rw [recLen_mono m2 (max m1 m2) _ b (le_max_right m1 m2) hx]
          · rw [hres]; ring
    · cases stack with
      | nil => exact absurd rfl hne
      | cons top rest =>
        rw [pureLoop_flat n c top rest total hf] at h
        cases rest with
        | nil =>
          rw [if_pos (by simp : ([] : List C).isEmpty = true)] at h
          refine ⟨1, CurveType.approximateDistance c, 0,
            recLen_flat 0 c (not_lt.mp hf), RecSum.nil, ?_⟩
          rw [← Option.some.inj h]; ring
        | cons r1 rs =>
          rw [if_neg (by simp : ¬ ((r1 :: rs) : List C).isEmpty = true)] at h
          obtain ⟨m1, v1, t1, htop, hsum, hres⟩ :=
            ih top (r1 :: rs) (total + CurveType.approximateDistance c) res
              (by simp) h
          have hdl : (top :: r1 :: rs).dropLast =
              top :: (r1 :: rs).dropLast := rfl
          refine ⟨1, CurveType.approximateDistance c, v1 + t1,
            recLen_flat 0 c (not_lt.mp hf), ?_, ?_⟩
          · rw [hdl]
            exact RecSum.cons m1 htop hsum
          · rw [hres]; ring

end

noncomputable section

theorem curveLoop_ge {C : Type} [CurveType C] [CurveLaws C] :
    ∀ (n : ℕ) (st : PathTraversalState) (c : C) (stack : List C)
      (total r : ℝ) (st' : PathTraversalState),
      curveLoop n st c stack total = some (r, st') → total ≤ r := by
  intro n
  induction n with
  | zero => intro st c stack total r st' h; simp [curveLoop_zero] at h
  | succ n ih =>
    intro st c stack total r st' h
    by_cases hf : CurveType.approximateDistance c -
        distanceLine (CurveType.startP c) (CurveType.endP c) >
        kPathSegmentLengthTolerance
    · rw [curveLoop_split n st c stack total hf] at h
      exact ih _ _ _ _ _ _ h
    · have htot : total ≤ total + CurveType.approximateDistance c :=
        le_add_of_nonneg_right (CurveLaws.approx_nonneg c)
      by_cases ha : st.m_action = TraversalPointAtLength ∨
          st.m_action = TraversalNormalAngleAtLength
      · by_cases hdc : st.m_totalLength +
            (total + CurveType.approximateDistance c) > st.m_desiredLength
        · rw [curveLoop_flat_point_ret n st c stack total hf ha hdc] at h
          obtain ⟨hr, -⟩ := Prod.mk.injEq .. ▸ Option.some.inj h
          exact hr ▸ htot
        · cases stack with
          | nil =>
            rw [curveLoop_flat_point_nil n st c total hf ha hdc] at h
            exact absurd h (by simp)
          | cons top rest =>
            rw [curveLoop_flat_point_cont n st c top rest total hf ha hdc] at h
            by_cases he : rest.isEmpty
            · rw [if_pos he] at h
              obtain ⟨hr, -⟩ := Prod.mk.injEq .. ▸ Option.some.inj h
              exact hr ▸ htot
            · rw [if_neg he] at h
              exact htot.trans (ih _ _ _ _ _ _ h)
      · cases stack with
        | nil =>
          rw [curveLoop_flat_total_nil n st c total hf ha] at h
          exact absurd h (by simp)
        | cons top rest =>
          rw [curveLoop_flat_total n st c top rest total hf ha] at h
          by_cases he : rest.isEmpty
          · rw [if_pos he] at h
            obtain ⟨hr, -⟩ := Prod.mk.injEq .. ▸ Option.some.inj h
            exact hr ▸ htot
          · rw [if_neg he] at h
            exact htot.trans (ih _ _ _ _ _ _ h)

theorem processSegment_some {fuel : ℕ} {st : PathTraversalState}
    {seg : PathSegment} {len : ℝ} {st1 : PathTraversalState}
    (h : processSegment fuel st seg = some (len, st1)) :
    0 ≤ len ∧ st1.m_totalLength = st.m_totalLength ∧
      st1.m_action = st.m_action ∧
      st1.m_desiredLength = st.m_desiredLength ∧
      st1.m_success = st.m_success ∧
      st1.m_segmentIndex = st.m_segmentIndex ∧
      st1.m_normalAngle = st.m_normalAngle := by
  cases seg with
  | moveToSeg p =>
    simp only [processSegment, PathTraversalState.moveTo,
      Option.some.injEq] at h
    obtain ⟨hlen, hst1⟩ := Prod.mk.injEq .. ▸ h
    subst hlen
    subst hst1
    simp
  | lineToSeg p =>
    simp only [processSegment, PathTraversalState.lineTo,
      Option.some.injEq] at h
    obtain ⟨hlen, hst1⟩ := Prod.mk.injEq .. ▸ h
    subst hlen
    subst hst1
    exact ⟨distanceLine_nonneg _ _, by simp⟩
  | closeSeg =>
    simp only [processSegment, PathTraversalState.closeSubpath,
      Option.some.injEq] at h
    obtain ⟨hlen, hst1⟩ := Prod.mk.injEq .. ▸ h
    subst hlen
    subst hst1
    exact ⟨distanceLine_nonneg _ _, by simp⟩
  | quadSeg a b =>
    simp only [processSegment, PathTraversalState.quadraticBezierTo,
      Option.map_eq_some'] at h
    obtain ⟨⟨r, stL⟩, hcl, hout⟩ := h
    obtain ⟨hfa, hfs, hfst, hfc1, hfc2, hft, hfi, hfd, hfn⟩ :=
      curveLoop_frame fuel st _ _ _ r stL hcl
    have hge : (0 : ℝ) ≤ r := curveLoop_ge fuel st _ _ _ r stL hcl
    obtain ⟨hlen, hst1⟩ := Prod.mk.injEq .. ▸ hout
    subst hlen
    subst hst1
    refine ⟨hge, ?_⟩
    by_cases hcond : st.m_action ≠ TraversalPointAtLength ∧
        st.m_action ≠ TraversalNormalAngleAtLength <;>
      simp [hcond, hfa, hfs, hft, hfd, hfi, hfn]
  | cubicSeg a b e =>
    simp only [processSegment, PathTraversalState.cubicBezierTo,
      Option.map_eq_some'] at h
    obtain ⟨⟨r, stL⟩, hcl, hout⟩ := h
    obtain ⟨hfa, hfs, hfst, hfc1, hfc2, hft, hfi, hfd, hfn⟩ :=
      curveLoop_frame fuel st _ _ _ r stL hcl
    have hge : (0 : ℝ) ≤ r := curveLoop_ge fuel st _ _ _ r stL hcl
    obtain ⟨hlen, hst1⟩ := Prod.mk.injEq .. ▸ hout
    subst hlen
    subst hst1
    refine ⟨hge, ?_⟩
    by_cases hcond : st.m_action ≠ TraversalPointAtLength ∧
        st.m_action ≠ TraversalNormalAngleAtLength <;>
      simp [hcond, hfa, hfs, hft, hfd, hfi, hfn]

end

noncomputable section

theorem curveCall_rel {C : Type} [CurveType C] [CurveLaws C] (fuel : ℕ)
    (stP stT : PathTraversalState) (q : C) (lenP lenT : ℝ)
    (stL stTL : PathTraversalState)
    (hactP : stP.m_action = TraversalPointAtLength ∨
      stP.m_action = TraversalNormalAngleAtLength)
    (hactT : stT.m_action = TraversalTotalLength)
    (hP : curveLength fuel stP q = some (lenP, stL))
    (hT : curveLength fuel stT q = some (lenT, stTL)) :
    lenP ≤ lenT ∧ stTL = stT ∧
      (stP.m_totalLength + lenP ≤ stP.m_desiredLength →
        lenP = lenT ∧ stL.m_current = CurveType.endP q) := by
  obtain ⟨hpure, hstTL⟩ :=
    curveLoop_total_eq_pure fuel stT q [q] 0 lenT stTL hactT hT
  refine ⟨curveLoop_point_le_pure fuel fuel stP q [q] 0 lenP lenT stL hP hpure,
    hstTL, ?_⟩
  intro hle
  have hchain : ChainTo (CurveType.startP q) (q :: ([q] : List C).dropLast)
      (CurveType.endP q) := ⟨rfl, rfl⟩
  obtain ⟨hpureP, hcur⟩ := curveLoop_point_notrunc fuel stP q [q] 0 lenP stL
    (CurveType.endP q) hactP hchain (by simp) hle hP
  exact ⟨Option.some.inj (hpureP.symm.trans hpure), hcur⟩

theorem processSegment_rel {fuel : ℕ} {stP stT : PathTraversalState}
    {seg : PathSegment} {lenP lenT : ℝ} {stP1 stT1 : PathTraversalState}
    (hactP : stP.m_action = TraversalPointAtLength ∨
      stP.m_action = TraversalNormalAngleAtLength)
    (hactT : stT.m_action = TraversalTotalLength)
    (hcur : stP.m_current = stT.m_current)
    (hstart : stP.m_start = stT.m_start)
    (hP : processSegment fuel stP seg = some (lenP, stP1))
    (hT : processSegment fuel stT seg = some (lenT, stT1)) :
    lenP ≤ lenT ∧
      (stP.m_totalLength + lenP ≤ stP.m_desiredLength →
        lenP = lenT ∧ stP1.m_current = stT1.m_current ∧
        stP1.m_start = stT1.m_start) := by
  cases seg with
  | moveToSeg p =>
    simp only [processSegment, PathTraversalState.moveTo,
      Option.some.injEq] at hP hT
    obtain ⟨hl1, hs1⟩ := Prod.mk.injEq .. ▸ hP
    obtain ⟨hl2, hs2⟩ := Prod.mk.injEq .. ▸ hT
    subst hl1
    subst hs1
    subst hl2
    subst hs2
    exact ⟨le_refl 0, fun _ => ⟨rfl, rfl, rfl⟩⟩
  | lineToSeg p =>
    simp only [processSegment, PathTraversalState.lineTo,
      Option.some.injEq] at hP hT
    obtain ⟨hl1, hs1⟩ := Prod.mk.injEq .. ▸ hP
    obtain ⟨hl2, hs2⟩ := Prod.mk.injEq .. ▸ hT
    subst hl1
    subst hs1
    subst hl2
    subst hs2
    exact ⟨by rw [hcur], fun _ => ⟨by rw [hcur], rfl, by rw [hstart]⟩⟩
  | closeSeg =>
    simp only [processSegment, PathTraversalState.closeSubpath,
      Option.some.injEq] at hP hT
    obtain ⟨hl1, hs1⟩ := Prod.mk.injEq .. ▸ hP
    obtain ⟨hl2, hs2⟩ := Prod.mk.injEq .. ▸ hT
    subst hl1
    subst hs1
    subst hl2
    subst hs2
    exact ⟨by rw [hcur, hstart], fun _ => ⟨by rw [hcur, hstart],
      by simp [hcur], by simp [hcur]⟩⟩
  | quadSeg a b =>
    simp only [processSegment, PathTraversalState.quadraticBezierTo,
      Option.map_eq_some'] at hP hT
    obtain ⟨⟨rP, stL⟩, hclP, houtP⟩ := hP
    obtain ⟨⟨rT, stTL⟩, hclT, houtT⟩ := hT
    rw [hcur] at hclP
    obtain ⟨hle, hstTL, hnt⟩ := curveCall_rel fuel stP stT
      (QuadraticBezier.mk stT.m_current a b) rP rT stL stTL hactP hactT
      hclP hclT
    obtain ⟨hfa, hfs, hfst, hfc1, hfc2, hft, hfi, hfd, hfn⟩ :=
      curveLoop_frame fuel stP _ _ _ rP stL hclP
    subst hstTL
    obtain ⟨hl1, hs1⟩ := Prod.mk.injEq .. ▸ houtP
    obtain ⟨hl2, hs2⟩ := Prod.mk.injEq .. ▸ houtT
    subst hl1
    subst hs1
    subst hl2
    subst hs2
    refine ⟨hle, fun hna => ?_⟩
    obtain ⟨hlen, hcurL⟩ := hnt hna
    have hcurL' : stL.m_current = b := hcurL
    rcases hactP with h | h <;>
      exact ⟨hlen, by simp [hfa, h, hactT, hcurL'],
        by simp [hfa, h, hactT, hfst, hstart]⟩
  | cubicSeg a b e =>
    simp only [processSegment, PathTraversalState.cubicBezierTo,
      Option.map_eq_some'] at hP hT
    obtain ⟨⟨rP, stL⟩, hclP, houtP⟩ := hP
    obtain ⟨⟨rT, stTL⟩, hclT, houtT⟩ := hT
    rw [hcur] at hclP
    obtain ⟨hle, hstTL, hnt⟩ := curveCall_rel fuel stP stT
      (CubicBezier.mk stT.m_current a b e) rP rT stL stTL hactP hactT
      hclP hclT
    obtain ⟨hfa, hfs, hfst, hfc1, hfc2, hft, hfi, hfd, hfn⟩ :=
      curveLoop_frame fuel stP _ _ _ rP stL hclP
    subst hstTL
    obtain ⟨hl1, hs1⟩ := Prod.mk.injEq .. ▸ houtP
    obtain ⟨hl2, hs2⟩ := Prod.mk.injEq .. ▸ houtT
    subst hl1
    subst hs1
    subst hl2
    subst hs2
    refine ⟨hle, fun hna => ?_⟩
    obtain ⟨hlen, hcurL⟩ := hnt hna
    have hcurL' : stL.m_current = e := hcurL
    rcases hactP with h | h <;>
      exact ⟨hlen, by simp [hfa, h, hactT, hcurL'],
        by simp [hfa, h, hactT, hfst, hstart]⟩

end

noncomputable section

/-- The relation maintained between a point/angle-query run and the
total-length run of the same path, between segment calls: either the query
has not yet succeeded and the two runs agree on position and accumulated
length (which is still short of the target), or it has succeeded and the
target is below the total run's accumulated length. -/
def DriverInv (d : ℝ) (stP stT : PathTraversalState) : Prop :=
  (stP.m_action = TraversalPointAtLength ∨
   stP.m_action = TraversalNormalAngleAtLength) ∧
  stP.m_desiredLength = d ∧
  stT.m_action = TraversalTotalLength ∧
  stT.m_success = false ∧
  ((stP.m_success = false ∧ stP.m_current = stT.m_current ∧
    stP.m_start = stT.m_start ∧ stP.m_totalLength = stT.m_totalLength ∧
    stP.m_totalLength < d) ∨
   (stP.m_success = true ∧ d ≤ stT.m_totalLength))

theorem driverStep_rel {fuel : ℕ} {d : ℝ}
    {stP stT stP' stT' : PathTraversalState} {seg : PathSegment}
    (hactP : stP.m_action = TraversalPointAtLength ∨
      stP.m_action = TraversalNormalAngleAtLength)
    (hdes : stP.m_desiredLength = d)
    (hactT : stT.m_action = TraversalTotalLength)
    (hsuccT : stT.m_success = false)
    (hsuccP : stP.m_success = false)
    (hcur : stP.m_current = stT.m_current)
    (hstart : stP.m_start = stT.m_start)
    (htot : stP.m_totalLength = stT.m_totalLength)
    (hP : driverStep fuel stP seg = some stP')
    (hT : driverStep fuel stT seg = some stT') :
    DriverInv d stP' stT' := by
  rw [driverStep, if_neg (by simp [hsuccP]), Option.map_eq_some'] at hP
  rw [driverStep, if_neg (by simp [hsuccT]), Option.map_eq_some'] at hT
  obtain ⟨⟨lenP, stP1⟩, hP1, hP2⟩ := hP
  obtain ⟨⟨lenT, stT1⟩, hT1, hT2⟩ := hT
  obtain ⟨hlenP0, hPt, hPa, hPd, hPs, hPi, hPn⟩ := processSegment_some hP1
  obtain ⟨hlenT0, hTt, hTa, hTd, hTs, hTi, hTn⟩ := processSegment_some hT1
  obtain ⟨hle, hnt⟩ := processSegment_rel hactP hactT hcur hstart hP1 hT1
  have hT2' : stT' =
      { stT1 with m_totalLength := stT1.m_totalLength + lenT } := by
    rw [← hT2]
    simp [hTa, hactT]
  by_cases hge : d ≤ stP.m_totalLength + lenP
  · have hP2' : stP' = { stP1 with
        m_totalLength := stP1.m_totalLength + lenP, m_success := true } := by
      rw [← hP2]
      rcases hactP with h | h <;>
        simp [hPa, h, hPt, hPd, hdes, ge_iff_le, hge]
    refine ⟨?_, ?_, ?_, ?_, Or.inr ⟨?_, ?_⟩⟩
    · rw [hP2']
      simpa [hPa] using hactP
    · rw [hP2']
      show stP1.m_desiredLength = d
      rw [hPd, hdes]
    · rw [hT2']
      show stT1.m_action = TraversalTotalLength
      rw [hTa, hactT]
    · rw [hT2']
      show stT1.m_success = false
      rw [hTs, hsuccT]
    · rw [hP2']
    · rw [hT2']
      show d ≤ stT1.m_totalLength + lenT
      linarith
  · have hna : stP.m_totalLength + lenP ≤ stP.m_desiredLength := by
      rw [hdes]
      linarith [not_le.mp hge]
    obtain ⟨hlen, hcur1, hstart1⟩ := hnt hna
    have hP2' : stP' =
        { stP1 with m_totalLength := stP1.m_totalLength + lenP } := by
      rw [← hP2]
      rcases hactP with h | h <;>
        simp [hPa, h, hPt, hPd, hdes, ge_iff_le, hge]
    refine ⟨?_, ?_, ?_, ?_, Or.inl ⟨?_, ?_, ?_, ?_, ?_⟩⟩
    · rw [hP2']
      simpa [hPa] using hactP
    · rw [hP2']
      show stP1.m_desiredLength = d
      rw [hPd, hdes]
    · rw [hT2']
      show stT1.m_action = TraversalTotalLength
      rw [hTa, hactT]
    · rw [hT2']
      show stT1.m_success = false
      rw [hTs, hsuccT]
    · rw [hP2']
      show stP1.m_success = false
      rw [hPs, hsuccP]
    · rw [hP2', hT2']
      exact hcur1
    · rw [hP2', hT2']
      exact hstart1
    · rw [hP2', hT2']
      show stP1.m_totalLength + lenP = stT1.m_totalLength + lenT
      rw [hPt, hTt, htot, hlen]
    · rw [hP2']
      show stP1.m_totalLength + lenP < d
      rw [hPt]
      linarith [not_le.mp hge]

theorem driverStep_totalLength_mono {fuel : ℕ} {st st' : PathTraversalState}
    {seg : PathSegment} (h : driverStep fuel st seg = some st') :
    st.m_totalLength ≤ st'.m_totalLength := by
  rw [driverStep] at h
  by_cases hs : st.m_success = true
  · rw [if_pos hs] at h
    rw [← Option.some.inj h]
  · rw [if_neg hs, Option.map_eq_some'] at h
    obtain ⟨⟨len, st1⟩, h1, h2⟩ := h
    obtain ⟨hlen0, ht, ha, hd, -, -, -⟩ := processSegment_some h1
    rw [← h2]
    by_cases hc : (st1.m_action = TraversalPointAtLength ∨
        st1.m_action = TraversalNormalAngleAtLength) ∧
        st1.m_totalLength + len ≥ st1.m_desiredLength <;>
      simp [hc, ge_iff_le] <;> rw [ht] at * <;> linarith

theorem traversePath_rel :
    ∀ (segs : List PathSegment) (fuel : ℕ) (d : ℝ)
      (stP stT sP sT : PathTraversalState),
      DriverInv d stP stT →
      traversePath fuel stP segs = some sP →
      traversePath fuel stT segs = some sT →
      (sP.m_success = true ↔ d ≤ sT.m_totalLength) := by
  intro segs
  induction segs with
  | nil =>
    intro fuel d stP stT sP sT hinv hP hT
    simp only [traversePath, Option.some.injEq] at hP hT
    subst hP
    subst hT
    obtain ⟨-, -, -, -, hAB⟩ := hinv
    rcases hAB with ⟨hs, -, -, htoteq, hlt⟩ | ⟨hs, hd⟩
    · rw [hs]
      simp only [Bool.false_eq_true, false_iff, not_le]
      linarith
    · rw [hs]
      simp only [true_iff]
      exact hd
  | cons seg rest ih =>
    intro fuel d stP stT sP sT hinv hP hT
    simp only [traversePath] at hP hT
    rw [Option.bind_eq_some] at hP hT
    obtain ⟨stP', hstep, hPrest⟩ := hP
    obtain ⟨stT', hstepT, hTrest⟩ := hT
    obtain ⟨hactP, hdes, hactT, hsuccT, hAB⟩ := hinv
    rcases hAB with ⟨hsP, hcur, hstart, htot, -⟩ | ⟨hsP, hd⟩
    · exact ih fuel d stP' stT' sP sT
        (driverStep_rel hactP hdes hactT hsuccT hsP hcur hstart htot
          hstep hstepT) hPrest hTrest
    · have hstP' : stP' = stP := by
        rw [driverStep, if_pos hsP] at hstep
        exact (Option.some.inj hstep).symm
      rw [driverStep, if_neg (by simp [hsuccT]), Option.map_eq_some']
        at hstepT
      obtain ⟨⟨lenT, stT1⟩, hT1, hT2⟩ := hstepT
      obtain ⟨hlenT0, hTt, hTa, hTd, hTs, -, -⟩ := processSegment_some hT1
      have hT2' : stT' =
          { stT1 with m_totalLength := stT1.m_totalLength + lenT } := by
        rw [← hT2]
        simp [hTa, hactT]
      refine ih fuel d stP stT' sP sT
        ⟨hactP, hdes, ?_, ?_, Or.inr ⟨hsP, ?_⟩⟩ (hstP' ▸ hPrest) hTrest
      · rw [hT2']
        show stT1.m_action = TraversalTotalLength
        rw [hTa, hactT]
      · rw [hT2']
        show stT1.m_success = false
        rw [hTs, hsuccT]
      · rw [hT2']
        show d ≤ stT1.m_totalLength + lenT
        linarith

end

noncomputable section

theorem distanceLine_eval {p q : FloatPoint} (a : ℝ) (ha : 0 ≤ a)
    (h : (q.x - p.x) * (q.x - p.x) + (q.y - p.y) * (q.y - p.y) = a ^ 2) :
    distanceLine p q = a := by
  rw [distanceLine, h, Real.sqrt_sq ha]

/-- C4: `split` performs exact midpoint (De Casteljau) subdivision: for
both curve kinds the left piece keeps the parent's start, the right piece
keeps the parent's end, the two pieces meet at one junction point, the
quadratic split has exactly the midpoint structure
`left = {start, mid(start,control), midOfMids}`,
`right = {midOfMids, mid(control,end), end}`, and each half traces the
parent curve (left covers parameters `[0, 1/2]`, right covers
`[1/2, 1]`), so concatenating left then right reproduces the parent. -/
theorem split_is_exact_midpoint_subdivision :
    (∀ q : QuadraticBezier,
      q.split.1.start = q.start ∧ q.split.2.endP = q.endP ∧
      q.split.1.endP = q.split.2.start ∧
      q.split.1 = ⟨q.start, midPoint q.start q.control,
        midPoint (midPoint q.start q.control) (midPoint q.control q.endP)⟩ ∧
      q.split.2 = ⟨midPoint (midPoint q.start q.control)
        (midPoint q.control q.endP), midPoint q.control q.endP, q.endP⟩ ∧
      (∀ t : ℝ, q.split.1.eval t = q.eval (t / 2)) ∧
      (∀ t : ℝ, q.split.2.eval t = q.eval ((1 + t) / 2))) ∧
    (∀ c : CubicBezier,
      c.split.1.start = c.start ∧ c.split.2.endP = c.endP ∧
      c.split.1.endP = c.split.2.start ∧
      (∀ t : ℝ, c.split.1.eval t = c.eval (t / 2)) ∧
      (∀ t : ℝ, c.split.2.eval t = c.eval ((1 + t) / 2))) := by
  constructor
  · intro q
    exact ⟨rfl, rfl, rfl, rfl, rfl, quadEval_split_left q,
      quadEval_split_right q⟩
  · intro c
    exact ⟨rfl, rfl, rfl, cubicEval_split_left c,
      cubicEval_split_right c⟩

/-- C6: `closeSubpath` returns the distance from `m_current` to the
subpath start as it was before the call, and only afterwards resets
`m_start`, `m_control1` and `m_control2` to `m_current`; every other
field (including `m_current` itself) is unchanged. -/
theorem closeSubpath_spec (s : PathTraversalState) :
    s.closeSubpath.1 = distanceLine s.m_current s.m_start ∧
    s.closeSubpath.2.m_start = s.m_current ∧
    s.closeSubpath.2.m_control1 = s.m_current ∧
    s.closeSubpath.2.m_control2 = s.m_current ∧
    s.closeSubpath.2.m_current = s.m_current ∧
    s.closeSubpath.2.m_previous = s.m_previous ∧
    s.closeSubpath.2.m_action = s.m_action ∧
    s.closeSubpath.2.m_success = s.m_success ∧
    s.closeSubpath.2.m_totalLength = s.m_totalLength ∧
    s.closeSubpath.2.m_segmentIndex = s.m_segmentIndex ∧
    s.closeSubpath.2.m_desiredLength = s.m_desiredLength ∧
    s.closeSubpath.2.m_normalAngle = s.m_normalAngle :=
  ⟨rfl, rfl, rfl, rfl, rfl, rfl, rfl, rfl, rfl, rfl, rfl, rfl⟩

end

noncomputable section

theorem chordLowerBound_generic {C : Type} [CurveType C] [CurveLaws C]
    (fuel : ℕ) (st : PathTraversalState) (c : C) (r : ℝ)
    (st' : PathTraversalState) (hact : st.m_action = TraversalTotalLength)
    (h : curveLength fuel st c = some (r, st')) :
    distanceLine (CurveType.startP c) (CurveType.endP c) ≤ r := by
  obtain ⟨hpure, -⟩ := curveLoop_total_eq_pure fuel st c [c] 0 r st' hact h
  have hchain : ChainTo (CurveType.startP c) (c :: ([c] : List C).dropLast)
      (CurveType.endP c) := ⟨rfl, rfl⟩
  have hb := pureLoop_chord_bound fuel c [c] 0 r (CurveType.endP c) hchain
    (by simp) hpure
  linarith

/-- C9: for a single quadratic or cubic curve measured under the
`TotalLength` action, the computed length is at least the straight-line
distance between the curve's start and end points. -/
theorem curveLength_chord_lower_bound :
    (∀ (fuel : ℕ) (st : PathTraversalState) (q : QuadraticBezier) (r : ℝ)
      (st' : PathTraversalState), st.m_action = TraversalTotalLength →
      curveLength fuel st q = some (r, st') →
      distanceLine q.start q.endP ≤ r) ∧
    (∀ (fuel : ℕ) (st : PathTraversalState) (c : CubicBezier) (r : ℝ)
      (st' : PathTraversalState), st.m_action = TraversalTotalLength →
      curveLength fuel st c = some (r, st') →
      distanceLine c.start c.endP ≤ r) :=
  ⟨fun fuel st q r st' ha h => chordLowerBound_generic fuel st q r st' ha h,
   fun fuel st c r st' ha h => chordLowerBound_generic fuel st c r st' ha h⟩

theorem quad_eval_0034 :
    curveLength 1 (PathTraversalState.init TraversalTotalLength)
      (QuadraticBezier.mk ⟨0, 0⟩ ⟨0, 0⟩ ⟨3, 4⟩) =
      some (5, PathTraversalState.init TraversalTotalLength) := by
  have h5 : CurveType.approximateDistance
      (QuadraticBezier.mk ⟨0, 0⟩ ⟨0, 0⟩ ⟨3, 4⟩) = 5 := by
    show QuadraticBezier.approximateDistance _ = 5
    rw [QuadraticBezier.approximateDistance, distanceLine_self,
      distanceLine_eval 5 (by norm_num) (by norm_num)]
    norm_num
  have hchord : distanceLine
      (CurveType.startP (QuadraticBezier.mk ⟨0, 0⟩ ⟨0, 0⟩ ⟨3, 4⟩))
      (CurveType.endP (QuadraticBezier.mk ⟨0, 0⟩ ⟨0, 0⟩ ⟨3, 4⟩)) = 5 := by
    show distanceLine (⟨0, 0⟩ : FloatPoint) ⟨3, 4⟩ = 5
    exact distanceLine_eval 5 (by norm_num) (by norm_num)
  have hf : ¬ (CurveType.approximateDistance
      (QuadraticBezier.mk ⟨0, 0⟩ ⟨0, 0⟩ ⟨3, 4⟩) -
      distanceLine (CurveType.startP (QuadraticBezier.mk ⟨0, 0⟩ ⟨0, 0⟩ ⟨3, 4⟩))
        (CurveType.endP (QuadraticBezier.mk ⟨0, 0⟩ ⟨0, 0⟩ ⟨3, 4⟩)) >
      kPathSegmentLengthTolerance) := by
    rw [h5, hchord, kPathSegmentLengthTolerance]
    norm_num
  rw [curveLength, curveLoop_flat_total 0 _ _ _ [] 0 hf (notPointAction rfl)]
  rw [if_pos (by simp : ([] : List QuadraticBezier).isEmpty = true), h5,
    zero_add]

theorem curveLength_chord_lower_bound_witness :
    curveLength 1 (PathTraversalState.init TraversalTotalLength)
      (QuadraticBezier.mk ⟨0, 0⟩ ⟨0, 0⟩ ⟨3, 4⟩) =
      some (5, PathTraversalState.init TraversalTotalLength) ∧
    distanceLine (QuadraticBezier.mk ⟨0, 0⟩ ⟨0, 0⟩ ⟨3, 4⟩).start
      (QuadraticBezier.mk ⟨0, 0⟩ ⟨0, 0⟩ ⟨3, 4⟩).endP ≤ 5 :=
  ⟨quad_eval_0034,
   curveLength_chord_lower_bound.1 1 (PathTraversalState.init
     TraversalTotalLength) (QuadraticBezier.mk ⟨0, 0⟩ ⟨0, 0⟩ ⟨3, 4⟩) 5
     (PathTraversalState.init TraversalTotalLength) rfl quad_eval_0034⟩

theorem degenerate_loop {C : Type} [CurveType C] (k : ℕ)
    (st : PathTraversalState) (c : C)
    (h0 : CurveType.approximateDistance c = 0) :
    ∃ st', curveLoop (k + 1) st c [c] 0 = some (0, st') := by
  have hn := distanceLine_nonneg (CurveType.startP c) (CurveType.endP c)
  have hf : ¬ (CurveType.approximateDistance c -
      distanceLine (CurveType.startP c) (CurveType.endP c) >
      kPathSegmentLengthTolerance) := by
    rw [h0, kPathSegmentLengthTolerance]
    refine not_lt.mpr ?_
    linarith
  by_cases ha : st.m_action = TraversalPointAtLength ∨
      st.m_action = TraversalNormalAngleAtLength
  · by_cases hd : st.m_totalLength + (0 + CurveType.approximateDistance c) >
        st.m_desiredLength
    · refine ⟨{ st with m_previous := CurveType.startP c,
                        m_current := CurveType.endP c }, ?_⟩
      rw [curveLoop_flat_point_ret k st c [c] 0 hf ha hd, h0]
      simp
    · refine ⟨{ st with m_previous := CurveType.startP c,
                        m_current := CurveType.endP c }, ?_⟩
      rw [curveLoop_flat_point_cont k st c c [] 0 hf ha hd,
        if_pos (by simp : ([] : List C).isEmpty = true), h0]
      simp
  · refine ⟨st, ?_⟩
    rw [curveLoop_flat_total k st c c [] 0 hf ha,
      if_pos (by simp : ([] : List C).isEmpty = true), h0]
    simp

/-- C8: a quadratic or cubic curve whose control points all coincide is
flat on the first iteration: one unit of fuel already makes `curveLength`
return a zero contribution, so the degenerate case cannot subdivide
forever. -/
theorem degenerate_curve_zero (fuel : ℕ) (hfuel : 1 ≤ fuel)
    (st : PathTraversalState) (P : FloatPoint) :
    (∃ st', curveLength fuel st (QuadraticBezier.mk P P P) =
      some (0, st')) ∧
    (∃ st', curveLength fuel st (CubicBezier.mk P P P P) =
      some (0, st')) := by
  obtain ⟨k, rfl⟩ : ∃ k, fuel = k + 1 := ⟨fuel - 1, by omega⟩
  constructor
  · refine degenerate_loop k st _ ?_
    show QuadraticBezier.approximateDistance _ = 0
    rw [QuadraticBezier.approximateDistance, distanceLine_self]
    norm_num
  · refine degenerate_loop k st _ ?_
    show CubicBezier.approximateDistance _ = 0
    rw [CubicBezier.approximateDistance, distanceLine_self]
    norm_num

theorem degenerate_curve_zero_witness :
    1 ≤ 1 ∧
    (∃ st', curveLength 1 (PathTraversalState.init TraversalTotalLength)
      (QuadraticBezier.mk ⟨0, 0⟩ ⟨0, 0⟩ ⟨0, 0⟩) = some (0, st')) ∧
    (∃ st', curveLength 1 (PathTraversalState.init TraversalTotalLength)
      (CubicBezier.mk ⟨0, 0⟩ ⟨0, 0⟩ ⟨0, 0⟩ ⟨0, 0⟩) = some (0, st')) :=
  ⟨le_refl 1,
   (degenerate_curve_zero 1 (le_refl 1)
     (PathTraversalState.init TraversalTotalLength) ⟨0, 0⟩).1,
   (degenerate_curve_zero 1 (le_refl 1)
     (PathTraversalState.init TraversalTotalLength) ⟨0, 0⟩).2⟩

end

noncomputable section

/-- C3: under a point/angle query, accepting a flat piece sets
`m_previous` to the piece's start and `m_current` to the piece's end, and
as soon as `m_totalLength` plus the updated running length strictly
exceeds `m_desiredLength` the loop returns the running length at once —
the result does not depend on the stack, so no further stack entries are
processed; otherwise the loop proceeds to the stack. -/
theorem point_query_flat_piece (C : Type) [inst : CurveType C] (n : ℕ)
    (st : PathTraversalState) (c : C) (total : ℝ)
    (ha : st.m_action = TraversalPointAtLength ∨
      st.m_action = TraversalNormalAngleAtLength)
    (hf : CurveType.approximateDistance c -
      distanceLine (CurveType.startP c) (CurveType.endP c) ≤
      kPathSegmentLengthTolerance) :
    (∀ stack : List C,
      st.m_totalLength + (total + CurveType.approximateDistance c) >
        st.m_desiredLength →
      curveLoop (n + 1) st c stack total =
        some (total + CurveType.approximateDistance c,
          { st with m_previous := CurveType.startP c,
                    m_current := CurveType.endP c })) ∧
    (∀ (top : C) (rest : List C),
      ¬ (st.m_totalLength + (total + CurveType.approximateDistance c) >
        st.m_desiredLength) →
      curveLoop (n + 1) st c (top :: rest) total =
        if rest.isEmpty then
          some (total + CurveType.approximateDistance c,
            { st with m_previous := CurveType.startP c,
                      m_current := CurveType.endP c })
        else
          curveLoop n { st with m_previous := CurveType.startP c,
                                m_current := CurveType.endP c }
            top rest (total + CurveType.approximateDistance c)) :=
  ⟨fun stack hd => curveLoop_flat_point_ret n st c stack total
      (not_lt.mpr hf) ha hd,
   fun top rest hd => curveLoop_flat_point_cont n st c top rest total
      (not_lt.mpr hf) ha hd⟩

/-- The state a point-at-length query starts from: the freshly constructed
state with the target length stored in `m_desiredLength`. -/
def ptState (d : ℝ) : PathTraversalState :=
  { PathTraversalState.init TraversalPointAtLength with m_desiredLength := d }

theorem approx_q53 : CurveType.approximateDistance
    (QuadraticBezier.mk ⟨0, 0⟩ ⟨0, 0⟩ ⟨3, 4⟩) = 5 := by
  show QuadraticBezier.approximateDistance _ = 5
  rw [QuadraticBezier.approximateDistance, distanceLine_self,
    distanceLine_eval 5 (by norm_num) (by norm_num)]
  norm_num

theorem flat_q53 : CurveType.approximateDistance
    (QuadraticBezier.mk ⟨0, 0⟩ ⟨0, 0⟩ ⟨3, 4⟩) -
    distanceLine
      (CurveType.startP (QuadraticBezier.mk ⟨0, 0⟩ ⟨0, 0⟩ ⟨3, 4⟩))
      (CurveType.endP (QuadraticBezier.mk ⟨0, 0⟩ ⟨0, 0⟩ ⟨3, 4⟩)) ≤
    kPathSegmentLengthTolerance := by
  have hchord : distanceLine
      (CurveType.startP (QuadraticBezier.mk ⟨0, 0⟩ ⟨0, 0⟩ ⟨3, 4⟩))
      (CurveType.endP (QuadraticBezier.mk ⟨0, 0⟩ ⟨0, 0⟩ ⟨3, 4⟩)) = 5 := by
    show distanceLine (⟨0, 0⟩ : FloatPoint) ⟨3, 4⟩ = 5
    exact distanceLine_eval 5 (by norm_num) (by norm_num)
  rw [approx_q53, hchord, kPathSegmentLengthTolerance]
  norm_num

theorem point_query_flat_piece_witness :
    ((ptState 2).m_action = TraversalPointAtLength ∨
      (ptState 2).m_action = TraversalNormalAngleAtLength) ∧
    (CurveType.approximateDistance
        (QuadraticBezier.mk ⟨0, 0⟩ ⟨0, 0⟩ ⟨3, 4⟩) -
      distanceLine
        (CurveType.startP (QuadraticBezier.mk ⟨0, 0⟩ ⟨0, 0⟩ ⟨3, 4⟩))
        (CurveType.endP (QuadraticBezier.mk ⟨0, 0⟩ ⟨0, 0⟩ ⟨3, 4⟩)) ≤
      kPathSegmentLengthTolerance) ∧
    ((ptState 2).m_totalLength +
      (0 + CurveType.approximateDistance
        (QuadraticBezier.mk ⟨0, 0⟩ ⟨0, 0⟩ ⟨3, 4⟩)) >
      (ptState 2).m_desiredLength) ∧
    curveLoop 1 (ptState 2) (QuadraticBezier.mk ⟨0, 0⟩ ⟨0, 0⟩ ⟨3, 4⟩)
      [QuadraticBezier.mk ⟨0, 0⟩ ⟨0, 0⟩ ⟨3, 4⟩] 0 =
      some (0 + CurveType.approximateDistance
          (QuadraticBezier.mk ⟨0, 0⟩ ⟨0, 0⟩ ⟨3, 4⟩),
        { ptState 2 with
            m_previous := CurveType.startP
              (QuadraticBezier.mk ⟨0, 0⟩ ⟨0, 0⟩ ⟨3, 4⟩),
            m_current := CurveType.endP
              (QuadraticBezier.mk ⟨0, 0⟩ ⟨0, 0⟩ ⟨3, 4⟩) }) := by
  have h1 : (ptState 2).m_action = TraversalPointAtLength ∨
      (ptState 2).m_action = TraversalNormalAngleAtLength := Or.inl rfl
  have h3 : (ptState 2).m_totalLength +
      (0 + CurveType.approximateDistance
        (QuadraticBezier.mk ⟨0, 0⟩ ⟨0, 0⟩ ⟨3, 4⟩)) >
      (ptState 2).m_desiredLength := by
    show (0 : ℝ) + (0 + CurveType.approximateDistance
      (QuadraticBezier.mk ⟨0, 0⟩ ⟨0, 0⟩ ⟨3, 4⟩)) > 2
    rw [approx_q53]
    norm_num
  exact ⟨h1, flat_q53, h3,
    (point_query_flat_piece QuadraticBezier 0 (ptState 2) _ 0 h1
      flat_q53).1 _ h3⟩

/-- C5: every segment operation returns a non-negative length, and hence
the externally accumulated `m_totalLength` never decreases from one
segment to the next (the accumulation step being the spec-modelled
driver). -/
theorem segment_lengths_nonneg :
    (∀ (s : PathTraversalState) (p : FloatPoint), 0 ≤ (s.moveTo p).1) ∧
    (∀ (s : PathTraversalState) (p : FloatPoint), 0 ≤ (s.lineTo p).1) ∧
    (∀ s : PathTraversalState, 0 ≤ s.closeSubpath.1) ∧
    (∀ (fuel : ℕ) (s : PathTraversalState) (c e : FloatPoint) (r : ℝ)
      (st' : PathTraversalState),
      s.quadraticBezierTo fuel c e = some (r, st') → 0 ≤ r) ∧
    (∀ (fuel : ℕ) (s : PathTraversalState) (c1 c2 e : FloatPoint) (r : ℝ)
      (st' : PathTraversalState),
      s.cubicBezierTo fuel c1 c2 e = some (r, st') → 0 ≤ r) ∧
    (∀ (fuel : ℕ) (st st' : PathTraversalState) (seg : PathSegment),
      driverStep fuel st seg = some st' →
      st.m_totalLength ≤ st'.m_totalLength) := by
  refine ⟨fun s p => le_refl 0, fun s p => distanceLine_nonneg _ _,
    fun s => distanceLine_nonneg _ _, ?_, ?_,
    fun fuel st st' seg h => driverStep_totalLength_mono h⟩
  · intro fuel s c e r st' h
    rw [PathTraversalState.quadraticBezierTo, Option.map_eq_some'] at h
    obtain ⟨⟨rr, stL⟩, hcl, hout⟩ := h
    obtain ⟨hr, -⟩ := Prod.mk.injEq .. ▸ hout
    exact hr ▸ curveLoop_ge fuel s _ _ _ rr stL hcl
  · intro fuel s c1 c2 e r st' h
    rw [PathTraversalState.cubicBezierTo, Option.map_eq_some'] at h
    obtain ⟨⟨rr, stL⟩, hcl, hout⟩ := h
    obtain ⟨hr, -⟩ := Prod.mk.injEq .. ▸ hout
    exact hr ▸ curveLoop_ge fuel s _ _ _ rr stL hcl

end

noncomputable section

theorem degenerate_loop_total {C : Type} [CurveType C] (k : ℕ)
    (st : PathTraversalState) (c : C)
    (h0 : CurveType.approximateDistance c = 0)
    (hact : ¬ (st.m_action = TraversalPointAtLength ∨
      st.m_action = TraversalNormalAngleAtLength)) :
    curveLoop (k + 1) st c [c] 0 = some (0, st) := by
  have hn := distanceLine_nonneg (CurveType.startP c) (CurveType.endP c)
  have hf : ¬ (CurveType.approximateDistance c -
      distanceLine (CurveType.startP c) (CurveType.endP c) >
      kPathSegmentLengthTolerance) := by
    rw [h0, kPathSegmentLengthTolerance]
    exact not_lt.mpr (by linarith)
  rw [curveLoop_flat_total k st c c [] 0 hf hact,
    if_pos (by simp : ([] : List C).isEmpty = true), h0]
  simp

theorem quad_eval_degen :
    (PathTraversalState.init TraversalTotalLength).quadraticBezierTo 1
      ⟨0, 0⟩ ⟨0, 0⟩ =
      some (0, PathTraversalState.init TraversalTotalLength) := by
  have h0 : CurveType.approximateDistance
      (QuadraticBezier.mk
        (PathTraversalState.init TraversalTotalLength).m_current
        ⟨0, 0⟩ ⟨0, 0⟩) = 0 := by
    show QuadraticBezier.approximateDistance
      (QuadraticBezier.mk ⟨0, 0⟩ ⟨0, 0⟩ ⟨0, 0⟩) = 0
    rw [QuadraticBezier.approximateDistance, distanceLine_self]
    norm_num
  rw [PathTraversalState.quadraticBezierTo,
    show curveLength 1 (PathTraversalState.init TraversalTotalLength)
      (QuadraticBezier.mk
        (PathTraversalState.init TraversalTotalLength).m_current
        ⟨0, 0⟩ ⟨0, 0⟩) =
      some (0, PathTraversalState.init TraversalTotalLength) from
      degenerate_loop_total 0 _ _ h0 (notPointAction rfl),
    Option.map_some']
  simp [PathTraversalState.init]

theorem cubic_eval_degen :
    (PathTraversalState.init TraversalTotalLength).cubicBezierTo 1
      ⟨0, 0⟩ ⟨0, 0⟩ ⟨0, 0⟩ =
      some (0, PathTraversalState.init TraversalTotalLength) := by
  have h0 : CurveType.approximateDistance
      (CubicBezier.mk
        (PathTraversalState.init TraversalTotalLength).m_current
        ⟨0, 0⟩ ⟨0, 0⟩ ⟨0, 0⟩) = 0 := by
    show CubicBezier.approximateDistance
      (CubicBezier.mk ⟨0, 0⟩ ⟨0, 0⟩ ⟨0, 0⟩ ⟨0, 0⟩) = 0
    rw [CubicBezier.approximateDistance, distanceLine_self]
    norm_num
  rw [PathTraversalState.cubicBezierTo,
    show curveLength 1 (PathTraversalState.init TraversalTotalLength)
      (CubicBezier.mk
        (PathTraversalState.init TraversalTotalLength).m_current
        ⟨0, 0⟩ ⟨0, 0⟩ ⟨0, 0⟩) =
      some (0, PathTraversalState.init TraversalTotalLength) from
      degenerate_loop_total 0 _ _ h0 (notPointAction rfl),
    Option.map_some']
  simp [PathTraversalState.init]

/-- A state whose query has already succeeded; the driver skips it. -/
def succState : PathTraversalState :=
  { PathTraversalState.init TraversalTotalLength with m_success := true }

theorem segment_lengths_nonneg_witness :
    0 ≤ ((PathTraversalState.init TraversalTotalLength).moveTo ⟨1, 2⟩).1 ∧
    0 ≤ ((PathTraversalState.init TraversalTotalLength).lineTo ⟨3, 4⟩).1 ∧
    0 ≤ (PathTraversalState.init TraversalTotalLength).closeSubpath.1 ∧
    ((PathTraversalState.init TraversalTotalLength).quadraticBezierTo 1
        ⟨0, 0⟩ ⟨0, 0⟩ =
        some (0, PathTraversalState.init TraversalTotalLength) ∧
      (0 : ℝ) ≤ 0) ∧
    ((PathTraversalState.init TraversalTotalLength).cubicBezierTo 1
        ⟨0, 0⟩ ⟨0, 0⟩ ⟨0, 0⟩ =
        some (0, PathTraversalState.init TraversalTotalLength) ∧
      (0 : ℝ) ≤ 0) ∧
    (driverStep 1 succState PathSegment.closeSeg = some succState ∧
      succState.m_totalLength ≤ succState.m_totalLength) := by
  have hskip : driverStep 1 succState PathSegment.closeSeg =
      some succState := by
    rw [driverStep, if_pos (show succState.m_success = true from rfl)]
  exact ⟨segment_lengths_nonneg.1 _ _, segment_lengths_nonneg.2.1 _ _,
    segment_lengths_nonneg.2.2.1 _,
    ⟨quad_eval_degen, segment_lengths_nonneg.2.2.2.1 1 _ _ _ 0 _
      quad_eval_degen⟩,
    ⟨cubic_eval_degen, segment_lengths_nonneg.2.2.2.2.1 1 _ _ _ _ 0 _
      cubic_eval_degen⟩,
    ⟨hskip, segment_lengths_nonneg.2.2.2.2.2 1 _ _ _ hskip⟩⟩

/-- C7: no segment operation, and not the subdivision loop either, writes
`m_totalLength`, `m_desiredLength`, `m_action`, `m_success`,
`m_segmentIndex` or `m_normalAngle`: those six fields come out exactly as
they went in; length accumulation is the external caller's job. -/
theorem state_frame_preserved :
    (∀ (s : PathTraversalState) (p : FloatPoint),
      (s.moveTo p).2.m_totalLength = s.m_totalLength ∧
      (s.moveTo p).2.m_desiredLength = s.m_desiredLength ∧
      (s.moveTo p).2.m_action = s.m_action ∧
      (s.moveTo p).2.m_success = s.m_success ∧
      (s.moveTo p).2.m_segmentIndex = s.m_segmentIndex ∧
      (s.moveTo p).2.m_normalAngle = s.m_normalAngle) ∧
    (∀ (s : PathTraversalState) (p : FloatPoint),
      (s.lineTo p).2.m_totalLength = s.m_totalLength ∧
      (s.lineTo p).2.m_desiredLength = s.m_desiredLength ∧
      (s.lineTo p).2.m_action = s.m_action ∧
      (s.lineTo p).2.m_success = s.m_success ∧
      (s.lineTo p).2.m_segmentIndex = s.m_segmentIndex ∧
      (s.lineTo p).2.m_normalAngle = s.m_normalAngle) ∧
    (∀ s : PathTraversalState,
      s.closeSubpath.2.m_totalLength = s.m_totalLength ∧
      s.closeSubpath.2.m_desiredLength = s.m_desiredLength ∧
      s.closeSubpath.2.m_action = s.m_action ∧
      s.closeSubpath.2.m_success = s.m_success ∧
      s.closeSubpath.2.m_segmentIndex = s.m_segmentIndex ∧
      s.closeSubpath.2.m_normalAngle = s.m_normalAngle) ∧
    (∀ (fuel : ℕ) (s : PathTraversalState) (c e : FloatPoint) (r : ℝ)
      (st' : PathTraversalState),
      s.quadraticBezierTo fuel c e = some (r, st') →
      st'.m_totalLength = s.m_totalLength ∧
      st'.m_desiredLength = s.m_desiredLength ∧
      st'.m_action = s.m_action ∧ st'.m_success = s.m_success ∧
      st'.m_segmentIndex = s.m_segmentIndex ∧
      st'.m_normalAngle = s.m_normalAngle) ∧
    (∀ (fuel : ℕ) (s : PathTraversalState) (c1 c2 e : FloatPoint) (r : ℝ)
      (st' : PathTraversalState),
      s.cubicBezierTo fuel c1 c2 e = some (r, st') →
      st'.m_totalLength = s.m_totalLength ∧
      st'.m_desiredLength = s.m_desiredLength ∧
      st'.m_action = s.m_action ∧ st'.m_success = s.m_success ∧
      st'.m_segmentIndex = s.m_segmentIndex ∧
      st'.m_normalAngle = s.m_normalAngle) ∧
    (∀ (C : Type) [inst : CurveType C] (n : ℕ) (st : PathTraversalState)
      (c : C) (stack : List C) (total r : ℝ) (st' : PathTraversalState),
      curveLoop n st c stack total = some (r, st') →
      st'.m_totalLength = st.m_totalLength ∧
      st'.m_desiredLength = st.m_desiredLength ∧
      st'.m_action = st.m_action ∧ st'.m_success = st.m_success ∧
      st'.m_segmentIndex = st.m_segmentIndex ∧
      st'.m_normalAngle = st.m_normalAngle) := by
  refine ⟨fun s p => ⟨rfl, rfl, rfl, rfl, rfl, rfl⟩,
    fun s p => ⟨rfl, rfl, rfl, rfl, rfl, rfl⟩,
    fun s => ⟨rfl, rfl, rfl, rfl, rfl, rfl⟩, ?_, ?_, ?_⟩
  · intro fuel s c e r st' h
    obtain ⟨-, ht, ha, hd, hs, hi, hn⟩ := processSegment_some
      (show processSegment fuel s (PathSegment.quadSeg c e) =
        some (r, st') from h)
    exact ⟨ht, hd, ha, hs, hi, hn⟩
  · intro fuel s c1 c2 e r st' h
    obtain ⟨-, ht, ha, hd, hs, hi, hn⟩ := processSegment_some
      (show processSegment fuel s (PathSegment.cubicSeg c1 c2 e) =
        some (r, st') from h)
    exact ⟨ht, hd, ha, hs, hi, hn⟩
  · intro C inst n st c stack total r st' h
    obtain ⟨ha, hs, -, -, -, ht, hi, hd, hn⟩ :=
      curveLoop_frame n st c stack total r st' h
    exact ⟨ht, hd, ha, hs, hi, hn⟩

theorem state_frame_preserved_witness :
    ((PathTraversalState.init TraversalTotalLength).quadraticBezierTo 1
        ⟨0, 0⟩ ⟨0, 0⟩ =
        some (0, PathTraversalState.init TraversalTotalLength) ∧
      (PathTraversalState.init TraversalTotalLength).m_totalLength =
        (PathTraversalState.init TraversalTotalLength).m_totalLength ∧
      (PathTraversalState.init TraversalTotalLength).m_desiredLength =
        (PathTraversalState.init TraversalTotalLength).m_desiredLength ∧
      (PathTraversalState.init TraversalTotalLength).m_action =
        (PathTraversalState.init TraversalTotalLength).m_action ∧
      (PathTraversalState.init TraversalTotalLength).m_success =
        (PathTraversalState.init TraversalTotalLength).m_success ∧
      (PathTraversalState.init TraversalTotalLength).m_segmentIndex =
        (PathTraversalState.init TraversalTotalLength).m_segmentIndex ∧
      (PathTraversalState.init TraversalTotalLength).m_normalAngle =
        (PathTraversalState.init TraversalTotalLength).m_normalAngle) ∧
    (curveLoop 1 (PathTraversalState.init TraversalTotalLength)
        (QuadraticBezier.mk ⟨0, 0⟩ ⟨0, 0⟩ ⟨3, 4⟩)
        [QuadraticBezier.mk ⟨0, 0⟩ ⟨0, 0⟩ ⟨3, 4⟩] 0 =
        some (5, PathTraversalState.init TraversalTotalLength) ∧
      (PathTraversalState.init TraversalTotalLength).m_totalLength =
        (PathTraversalState.init TraversalTotalLength).m_totalLength) := by
  have hloop : curveLoop 1 (PathTraversalState.init TraversalTotalLength)
      (QuadraticBezier.mk ⟨0, 0⟩ ⟨0, 0⟩ ⟨3, 4⟩)
      [QuadraticBezier.mk ⟨0, 0⟩ ⟨0, 0⟩ ⟨3, 4⟩] 0 =
      some (5, PathTraversalState.init TraversalTotalLength) :=
    quad_eval_0034
  exact ⟨⟨quad_eval_degen,
    state_frame_preserved.2.2.2.1 1 _ _ _ 0 _ quad_eval_degen⟩,
    ⟨hloop, (state_frame_preserved.2.2.2.2.2 QuadraticBezier 1 _ _ _ 0 5 _
      hloop).1⟩⟩

end

noncomputable section

/-- The borderline-flat quadratic used to separate the control-polygon
length from the chord length: its slack is exactly the tolerance, so it
is accepted as flat, while its control-polygon length 1/40000 differs
from its chord 3/200000. -/
def qC1 : QuadraticBezier :=
  ⟨⟨0, 0⟩, ⟨3 / 400000, 1 / 100000⟩, ⟨3 / 200000, 0⟩⟩

theorem approx_qC1 : CurveType.approximateDistance qC1 = 1 / 40000 := by
  show QuadraticBezier.approximateDistance qC1 = 1 / 40000
  rw [QuadraticBezier.approximateDistance,
    distanceLine_eval (1 / 80000) (by norm_num) (by norm_num [qC1]),
    distanceLine_eval (1 / 80000) (by norm_num) (by norm_num [qC1])]
  norm_num

theorem chord_qC1 : distanceLine (CurveType.startP qC1)
    (CurveType.endP qC1) = 3 / 200000 := by
  show distanceLine qC1.start qC1.endP = 3 / 200000
  exact distanceLine_eval (3 / 200000) (by norm_num) (by norm_num [qC1])

theorem flat_qC1 : CurveType.approximateDistance qC1 -
    distanceLine (CurveType.startP qC1) (CurveType.endP qC1) ≤
    kPathSegmentLengthTolerance := by
  rw [approx_qC1, chord_qC1, kPathSegmentLengthTolerance]
  norm_num

theorem qC1_eval : curveLength 1 (PathTraversalState.init
    TraversalTotalLength) qC1 =
    some (1 / 40000, PathTraversalState.init TraversalTotalLength) := by
  rw [curveLength,
    curveLoop_flat_total 0 _ _ _ [] 0 (not_lt.mpr flat_qC1)
      (notPointAction rfl),
    if_pos (by simp : ([] : List QuadraticBezier).isEmpty = true),
    approx_qC1, zero_add]

/-- C1 counterexample: for the flat quadratic `qC1` the adaptive loop
accepts the piece on its first iteration and returns 1/40000, the
control-polygon length `approximateDistance()`; the chord
`distance(piece.start, piece.end)` is 3/200000, a different number, so
the chord is not the value added to the running length. -/
theorem adaptive_loop_adds_chord_counterexample :
    curveLength 1 (PathTraversalState.init TraversalTotalLength) qC1 =
      some (1 / 40000, PathTraversalState.init TraversalTotalLength) ∧
    CurveType.approximateDistance qC1 = 1 / 40000 ∧
    distanceLine (CurveType.startP qC1) (CurveType.endP qC1) =
      3 / 200000 ∧
    CurveType.approximateDistance qC1 -
      distanceLine (CurveType.startP qC1) (CurveType.endP qC1) ≤
      kPathSegmentLengthTolerance ∧
    (1 / 40000 : ℝ) ≠ 3 / 200000 :=
  ⟨qC1_eval, approx_qC1, chord_qC1, flat_qC1, by norm_num⟩

/-- C1 (amended): in the adaptive loop, slack is
`approximateDistance()` minus the chord; when it exceeds 1e-5 the piece
is split, the left half becomes the current piece and the right half is
pushed; otherwise the piece is flat and its `approximateDistance()` — the
control-polygon length, not the chord — is the value added to the running
length, so a completed `TotalLength` run returns the sum of the
`approximateDistance()` values of its accepted flat pieces. -/
theorem adaptive_loop_step :
    (∀ (C : Type) [inst : CurveType C] (n : ℕ) (st : PathTraversalState)
      (c : C) (stack : List C) (total : ℝ),
      CurveType.approximateDistance c -
        distanceLine (CurveType.startP c) (CurveType.endP c) >
        kPathSegmentLengthTolerance →
      curveLoop (n + 1) st c stack total =
        curveLoop n st (CurveType.split c).1
          ((CurveType.split c).2 :: stack) total) ∧
    (∀ (C : Type) [inst : CurveType C] (fuel : ℕ)
      (st : PathTraversalState) (c : C) (r : ℝ)
      (st' : PathTraversalState),
      st.m_action = TraversalTotalLength →
      curveLength fuel st c = some (r, st') →
      ∃ ps : List C, ps ≠ [] ∧
        (∀ p ∈ ps, CurveType.approximateDistance p -
          distanceLine (CurveType.startP p) (CurveType.endP p) ≤
          kPathSegmentLengthTolerance) ∧
        r = (ps.map CurveType.approximateDistance).sum) := by
  refine ⟨fun C _ n st c stack total hf =>
    curveLoop_split n st c stack total hf, ?_⟩
  intro C _ fuel st c r st' hact h
  obtain ⟨hpure, -⟩ := curveLoop_total_eq_pure fuel st c [c] 0 r st' hact h
  obtain ⟨ps, hne, hflat, hsum⟩ := pureLoop_flat_sum fuel c [c] 0 r hpure
  exact ⟨ps, hne, hflat, by rw [hsum, zero_add]⟩

/-- The visibly curved quadratic (0,0)-(3,4)-(6,0): slack 4 over the
chord 6, far above the tolerance, so the loop splits it. -/
def qBig : QuadraticBezier := ⟨⟨0, 0⟩, ⟨3, 4⟩, ⟨6, 0⟩⟩

theorem curved_qBig : CurveType.approximateDistance qBig -
    distanceLine (CurveType.startP qBig) (CurveType.endP qBig) >
    kPathSegmentLengthTolerance := by
  have ha : CurveType.approximateDistance qBig = 10 := by
    show QuadraticBezier.approximateDistance qBig = 10
    rw [QuadraticBezier.approximateDistance,
      distanceLine_eval 5 (by norm_num) (by norm_num [qBig]),
      distanceLine_eval 5 (by norm_num) (by norm_num [qBig])]
    norm_num
  have hc : distanceLine (CurveType.startP qBig)
      (CurveType.endP qBig) = 6 := by
    show distanceLine qBig.start qBig.endP = 6
    exact distanceLine_eval 6 (by norm_num) (by norm_num [qBig])
  rw [ha, hc, kPathSegmentLengthTolerance]
  norm_num

theorem adaptive_loop_step_witness :
    (CurveType.approximateDistance qBig -
      distanceLine (CurveType.startP qBig) (CurveType.endP qBig) >
      kPathSegmentLengthTolerance) ∧
    curveLoop 1 (PathTraversalState.init TraversalTotalLength) qBig
      [qBig] 0 =
      curveLoop 0 (PathTraversalState.init TraversalTotalLength)
        (CurveType.split qBig).1 [(CurveType.split qBig).2, qBig] 0 ∧
    curveLength 1 (PathTraversalState.init TraversalTotalLength) qC1 =
      some (1 / 40000, PathTraversalState.init TraversalTotalLength) ∧
    (∃ ps : List QuadraticBezier, ps ≠ [] ∧
      (∀ p ∈ ps, CurveType.approximateDistance p -
        distanceLine (CurveType.startP p) (CurveType.endP p) ≤
        kPathSegmentLengthTolerance) ∧
      (1 / 40000 : ℝ) = (ps.map CurveType.approximateDistance).sum) :=
  ⟨curved_qBig,
   adaptive_loop_step.1 QuadraticBezier 0
     (PathTraversalState.init TraversalTotalLength) qBig [qBig] 0
     curved_qBig,
   qC1_eval,
   adaptive_loop_step.2 QuadraticBezier 1
     (PathTraversalState.init TraversalTotalLength) qC1 (1 / 40000)
     (PathTraversalState.init TraversalTotalLength) rfl qC1_eval⟩

/-- C10: under the `TotalLength` action the explicit-stack loop of
`curveLength` computes exactly the naive recursive adaptive length
`recLen` (flat piece: its `approximateDistance()`; otherwise the sum over
the two halves); in particular the sentinel copy of the input pushed at
entry is never accumulated a second time. -/
theorem curveLength_eq_recLen (C : Type) [inst : CurveType C]
    (st : PathTraversalState) (c : C) (r : ℝ)
    (hact : st.m_action = TraversalTotalLength) :
    (∃ (n : ℕ) (st' : PathTraversalState),
      curveLength n st c = some (r, st')) ↔
    (∃ m, recLen m c = some r) := by
  constructor
  · rintro ⟨n, st', h⟩
    obtain ⟨hpure, -⟩ := curveLoop_total_eq_pure n st c [c] 0 r st' hact h
    obtain ⟨m, r1, t, hrec, hsum, hres⟩ :=
      pureLoop_to_recLen n c [c] 0 r (by simp) hpure
    have ht : t = 0 := by cases hsum; rfl
    have hr1 : r1 = r := by rw [hres, ht]; ring
    exact ⟨m, hr1 ▸ hrec⟩
  · rintro ⟨m, h⟩
    have hpop : PopSpec (0 + r) ([c] : List C) r :=
      ⟨c, [], rfl, Or.inl ⟨rfl, (zero_add r).symm⟩⟩
    obtain ⟨n, hn⟩ := recLen_to_pureLoop m c r h [c] 0 r hpop
    exact ⟨n, st, pure_to_curveLoop_total n st c [c] 0 r hact hn⟩

theorem curveLength_eq_recLen_witness :
    (PathTraversalState.init TraversalTotalLength).m_action =
      TraversalTotalLength ∧
    (∃ m, recLen m (QuadraticBezier.mk ⟨0, 0⟩ ⟨0, 0⟩ ⟨3, 4⟩) = some 5) :=
  ⟨rfl,
   (curveLength_eq_recLen QuadraticBezier
     (PathTraversalState.init TraversalTotalLength)
     (QuadraticBezier.mk ⟨0, 0⟩ ⟨0, 0⟩ ⟨3, 4⟩) 5 rfl).mp
     ⟨1, PathTraversalState.init TraversalTotalLength, quad_eval_0034⟩⟩

end

noncomputable section

/-- C2: for a `PointAtLength` or `NormalAngleAtLength` query driven over a
nonempty path by the spec-modelled iterator, after the full traversal the
success flag is true exactly when the desired length is at most the
path's total length (the total length of the same segment list measured
by a `TotalLength` run). -/
theorem success_iff_desired_le_total (a : PathTraversalAction)
    (ha : a = TraversalPointAtLength ∨ a = TraversalNormalAngleAtLength)
    (fuel : ℕ) (d : ℝ) (segs : List PathSegment) (hne : segs ≠ [])
    (sP sT : PathTraversalState)
    (hP : traversePath fuel
      { PathTraversalState.init a with m_desiredLength := d } segs =
      some sP)
    (hT : traversePath fuel
      (PathTraversalState.init TraversalTotalLength) segs = some sT) :
    (sP.m_success = true ↔ d ≤ sT.m_totalLength) := by
  cases segs with
  | nil => exact absurd rfl hne
  | cons seg rest =>
    simp only [traversePath] at hP hT
    rw [Option.bind_eq_some] at hP hT
    obtain ⟨stP', hstep, hPrest⟩ := hP
    obtain ⟨stT', hstepT, hTrest⟩ := hT
    have hinv : DriverInv d stP' stT' :=
      @driverStep_rel fuel d
        { PathTraversalState.init a with m_desiredLength := d }
        (PathTraversalState.init TraversalTotalLength) stP' stT' seg
        ha rfl rfl rfl rfl rfl rfl rfl hstep hstepT
    exact traversePath_rel rest fuel d stP' stT' sP sT hinv hPrest hTrest

/-- The final state of the point query over the one-segment path
`lineTo (3,4)` with desired length 2. -/
def sPval : PathTraversalState :=
  { m_action := TraversalPointAtLength, m_success := true,
    m_current := ⟨3, 4⟩, m_start := ⟨0, 0⟩, m_control1 := ⟨3, 4⟩,
    m_control2 := ⟨3, 4⟩, m_previous := ⟨0, 0⟩, m_totalLength := 5,
    m_segmentIndex := 0, m_desiredLength := 2, m_normalAngle := 0 }

/-- The final state of the total-length run over the same path. -/
def sTval : PathTraversalState :=
  { m_action := TraversalTotalLength, m_success := false,
    m_current := ⟨3, 4⟩, m_start := ⟨0, 0⟩, m_control1 := ⟨3, 4⟩,
    m_control2 := ⟨3, 4⟩, m_previous := ⟨0, 0⟩, m_totalLength := 5,
    m_segmentIndex := 0, m_desiredLength := 0, m_normalAngle := 0 }

theorem dist_0_34 : distanceLine ⟨0, 0⟩ ⟨3, 4⟩ = 5 :=
  distanceLine_eval 5 (by norm_num) (by norm_num)

theorem point_run_eval : traversePath 1 (ptState 2)
    [PathSegment.lineToSeg ⟨3, 4⟩] = some sPval := by
  have hstep : driverStep 1 (ptState 2) (PathSegment.lineToSeg ⟨3, 4⟩) =
      some sPval := by
    rw [driverStep, if_neg (show ¬ (ptState 2).m_success = true by
      simp [ptState, PathTraversalState.init])]
    norm_num [processSegment, PathTraversalState.lineTo, dist_0_34,
      ptState, PathTraversalState.init, sPval]
  simp only [traversePath]
  rw [hstep]
  simp [traversePath]

theorem total_run_eval : traversePath 1
    (PathTraversalState.init TraversalTotalLength)
    [PathSegment.lineToSeg ⟨3, 4⟩] = some sTval := by
  have hstep : driverStep 1 (PathTraversalState.init TraversalTotalLength)
      (PathSegment.lineToSeg ⟨3, 4⟩) = some sTval := by
    rw [driverStep, if_neg (show
      ¬ (PathTraversalState.init TraversalTotalLength).m_success = true by
      simp [PathTraversalState.init])]
    have hne1 : TraversalTotalLength ≠ TraversalPointAtLength :=
      fun hc => PathTraversalAction.noConfusion hc
    have hne2 : TraversalTotalLength ≠ TraversalNormalAngleAtLength :=
      fun hc => PathTraversalAction.noConfusion hc
    norm_num [processSegment, PathTraversalState.lineTo, dist_0_34,
      PathTraversalState.init, sTval, hne1, hne2]
  simp only [traversePath]
  rw [hstep]
  simp [traversePath]

theorem success_iff_desired_le_total_witness :
    (TraversalPointAtLength = TraversalPointAtLength ∨
      TraversalPointAtLength = TraversalNormalAngleAtLength) ∧
    ([PathSegment.lineToSeg ⟨3, 4⟩] ≠ ([] : List PathSegment)) ∧
    traversePath 1 (ptState 2) [PathSegment.lineToSeg ⟨3, 4⟩] =
      some sPval ∧
    traversePath 1 (PathTraversalState.init TraversalTotalLength)
      [PathSegment.lineToSeg ⟨3, 4⟩] = some sTval ∧
    (sPval.m_success = true ↔ (2 : ℝ) ≤ sTval.m_totalLength) :=
  ⟨Or.inl rfl, by simp, point_run_eval, total_run_eval,
   success_iff_desired_le_total TraversalPointAtLength (Or.inl rfl) 1 2
     [PathSegment.lineToSeg ⟨3, 4⟩] (by simp) sPval sTval
     point_run_eval total_run_eval⟩

end
